import Mathlib

/-!
Verification development for the GraphQL request-interpretation and
field-projection engine of the `msw` fork (GraphQL handler, request parsing,
and `pickOperationFields`).

The TypeScript sources are shallowly embedded:

* JavaScript object graphs (which may contain reference cycles) are
  represented by a `Store`: a list of nodes, each node an association list of
  fields; an object value is a reference (`GVal.obj r`) into the store.
  Arrays are represented structurally (`GVal.arr`); the repository only ever
  creates cycles through object fields, never through array identity.
* Projection output is the inductive `OutVal`: freshly created objects and
  arrays are structural, values copied straight from the payload (including
  object references shared with the input) are wrapped in `OutVal.raw`.
* Exceptions are modelled with `Except`.  `PickErr.fuelOut` is an artifact of
  the embedding: the recursion of the source walks the payload graph, which is
  modelled here by a fuel parameter, and `fuelOut` marks fuel exhaustion
  (corresponding to non-termination of the source, which can only arise from
  fragment-definition cycles).  All other `PickErr` constructors correspond to
  `throw new Error(...)` in the source; `PickErr.message` renders the exact
  message strings.
* The behaviour of the external `graphql-js` library functions used by the
  source (`collectFields`, `buildExecutionContext`, `GraphQLSchema#getType`)
  is embedded following that library's v16 implementation, restricted to the
  features exercised by this repository (object types, `skip`/`include`
  directives, `String`/`Boolean` scalars).
-/

namespace Msw

/-- JavaScript runtime values flowing through the projection engine.  Objects
are references into a `Store` so that cyclic payload graphs are expressible;
`undef` is JavaScript's `undefined` (the result of reading an absent
property). -/
inductive GVal where
  | null
  | undef
  | str (s : String)
  | num (n : Int)
  | bool (b : Bool)
  | arr (items : List GVal)
  | obj (ref : Nat)
deriving Repr

/-- A heap of JavaScript objects: node `r` is the association list of own
properties of the object referenced by `GVal.obj r`. -/
abbrev Store : Type := List (List (String × GVal))

/-- Association-list lookup, mirroring JavaScript property reads (first — and
only — binding of a key wins; `recordSet` keeps keys unique). -/
def recordGet {α : Type} : List (String × α) → String → Option α
  | [], _ => none
  | (k', v) :: rest, k => if k' = k then some v else recordGet rest k

/-- Association-list update, mirroring JavaScript property assignment: an
existing key keeps its position and gets the new value, a new key is appended
(insertion order, as JavaScript objects and `Map`s preserve it). -/
def recordSet {α : Type} : List (String × α) → String → α → List (String × α)
  | [], k, v => [(k, v)]
  | (k', v') :: rest, k, v =>
    if k' = k then (k', v) :: rest else (k', v') :: recordSet rest k v

/-- The node of the store referenced by index `r` (out-of-range references do
not occur for well-formed inputs and read as an empty object). -/
def getNode (store : Store) (r : Nat) : List (String × GVal) :=
  List.getD store r []

/-- Property read `v[name]`, yielding `undefined` when the property is absent.
Reading a named property off a non-object (in particular off an array, whose
GraphQL-selected field names never collide with array properties in this
repository) yields `undefined`. -/
def getPropVal (store : Store) (v : GVal) (name : String) : GVal :=
  match v with
  | .obj r => (recordGet (getNode store r) name).getD GVal.undef
  | _ => GVal.undef

/-- The source guard `typeof fieldData === 'object' && fieldData !== null`:
true exactly for objects and arrays (our `GVal.null` models JavaScript `null`
separately, so the `!== null` part is the exclusion of the `null`
constructor). -/
def isObjectLike : GVal → Bool
  | .obj _ => true
  | .arr _ => true
  | _ => false

/-- Projected output values: `raw` wraps a value copied unchanged from the
payload (possibly an object reference shared with the input graph), `objOut`
is a freshly created result object, `arrOut` a freshly created array produced
by `Array.prototype.map`. -/
inductive OutVal where
  | raw (v : GVal)
  | objOut (fields : List (String × OutVal))
  | arrOut (items : List OutVal)
deriving Repr

/-- JSON-compatible values for the transport layer (`JSON.parse` output plus
multipart `File` references).  Unlike payloads, JSON values are always
acyclic, so a structural representation is exact. -/
inductive JVal where
  | null
  | str (s : String)
  | num (n : Int)
  | bool (b : Bool)
  | arr (items : List JVal)
  | obj (fields : List (String × JVal))
  | file (key : String)
deriving Repr

/-- JavaScript truthiness of a `JVal`. -/
def jsTruthy : JVal → Bool
  | .null => false
  | .str s => !(s = "")
  | .num n => !(n = 0)
  | .bool b => b
  | .arr _ => true
  | .obj _ => true
  | .file _ => true

/-- Truthiness of an optional value, where `none` models JavaScript
`undefined`. -/
def jsTruthyOpt : Option JVal → Bool
  | none => false
  | some v => jsTruthy v

/-- A directive argument in the document AST: either a literal value or a
variable reference (`@skip(if: true)` vs `@skip(if: $flag)`). -/
inductive ArgValue where
  | lit (v : GVal)
  | varRef (name : String)
deriving Repr

/-- A directive applied to a selection, e.g. `@skip(if: $x)`. -/
structure Directive where
  name : String
  args : List (String × ArgValue)
deriving Repr

/-- A selection inside a selection set: a field (with optional alias,
directives and nested selection set), an inline fragment, or a fragment
spread.  A selection set is a `List Selection`. -/
inductive Selection where
  | field (al : Option String) (name : String) (dirs : List Directive)
      (sub : Option (List Selection))
  | inlineFragment (typeCond : Option String) (dirs : List Directive)
      (body : List Selection)
  | fragmentSpread (name : String) (dirs : List Directive)
deriving Repr

/-- The data of a `FieldNode` as used by the projector (the entry stored in
the field map produced by `collectFields`). -/
structure FieldInfo where
  al : Option String
  name : String
  dirs : List Directive
  sub : Option (List Selection)
deriving Repr

/-- GraphQL operation types. -/
inductive OpType where
  | query
  | mutation
  | subscription
deriving Repr, DecidableEq

/-- A variable definition of an operation, e.g. `$userId: String!` with an
optional default value. -/
structure VarDef where
  name : String
  typeName : String
  nonNull : Bool
  defaultVal : Option JVal
deriving Repr

/-- An `OperationDefinitionNode`. -/
structure OperationDefinition where
  name : Option String
  operation : OpType
  variableDefinitions : List VarDef
  selectionSet : List Selection
deriving Repr

/-- A `FragmentDefinitionNode` (`fragment Name on TypeCond { ... }`). -/
structure FragmentDefinition where
  name : String
  typeCondition : String
  selectionSet : List Selection
deriving Repr

/-- A top-level definition of a parsed document.  Executable documents
produced by the external parser contain only operation and fragment
definitions, which are the two kinds the source filters on. -/
inductive DefinitionNode where
  | opDef (o : OperationDefinition)
  | fragDef (f : FragmentDefinition)
deriving Repr

/-- A parsed `DocumentNode`. -/
structure DocumentNode where
  definitions : List DefinitionNode
deriving Repr

/-- Type names present in the type map of every `GraphQLSchema`, including
`new GraphQLSchema({})`: the scalars referenced by the specified directives
(`skip`/`include`/`deprecated`/`specifiedBy`) and the introspection types,
which the `GraphQLSchema` constructor always collects. -/
def builtinTypeNames : List String :=
  ["String", "Boolean", "__Schema", "__Type", "__TypeKind", "__Field",
   "__InputValue", "__EnumValue", "__Directive", "__DirectiveLocation"]

/-- Model of a `GraphQLSchema` as used by this engine: a flag recording
whether the schema is the module-level `dummySchema` (the source compares
with `schema !== dummySchema` by reference), the user-declared object type
names, and the optional root operation types. -/
structure SchemaM where
  isDummy : Bool
  typeNames : List String
  rootQuery : Option String
  rootMutation : Option String
  rootSubscription : Option String
deriving Repr

/-- The module-level `new GraphQLSchema({})` used as default. -/
def dummySchema : SchemaM :=
  { isDummy := true, typeNames := [], rootQuery := none, rootMutation := none,
    rootSubscription := none }

/-- `schema.getType(name)`: resolves user-declared type names and the
built-in names present in every schema's type map. -/
def getType (schema : SchemaM) (name : String) : Option String :=
  if name ∈ schema.typeNames ∨ name ∈ builtinTypeNames then some name else none

/-- `schema.getRootType(operation)`. -/
def getRootType (schema : SchemaM) (op : OpType) : Option String :=
  match op with
  | .query => schema.rootQuery
  | .mutation => schema.rootMutation
  | .subscription => schema.rootSubscription

/-- The fragment table passed to `collectFields`
(`Record<string, FragmentDefinitionNode>`). -/
abbrev Fragments : Type := List (String × FragmentDefinition)

/-- Runtime variable values (`Record<string, unknown>`). -/
abbrev Vars : Type := List (String × GVal)

/-- Errors thrown by the projection engine.  `message` below renders the
exact `Error` message strings of the source; `fuelOut` is the embedding's
fuel-exhaustion artifact and corresponds to no source behaviour other than
non-termination. -/
inductive PickErr where
  | fuelOut
  | inferError (path : String)
  | argError (directiveName : String)
  | unknownOperation (name : Option String)
deriving Repr, DecidableEq

/-- The `Error` message carried by each modelled exception. -/
def PickErr.message : PickErr → String
  | .fuelOut => "model fuel exhausted"
  | .inferError path =>
      "Unable to infer object type. Ensure \"" ++ path ++ "\" includes __typename."
  | .argError d =>
      "Argument \"if\" of required type \"Boolean!\" was not provided to directive \"" ++ d ++ "\"."
  | .unknownOperation (some n) =>
      "Unable to find operation named \"" ++ n ++ "\""
  | .unknownOperation none =>
      "Unable to find anonymous query, pass operationName to choose an operation"

/-- The value of the `if` argument of the first directive named `dname` on a
node, resolved against the runtime variableValues, following
`getDirectiveValues`: a literal boolean coerces to itself, a variable
reference reads the (previously coerced) variable value as-is; a missing
argument, a non-boolean literal, a missing variable or a nullish variable
value for the non-null `Boolean!` argument throw. -/
def getDirectiveIf (vars : Vars) (dirs : List Directive) (dname : String) :
    Except PickErr (Option GVal) :=
  match dirs.find? (fun d => d.name = dname) with
  | none => .ok none
  | some d =>
    match recordGet d.args "if" with
    | none => .error (.argError dname)
    | some (.lit (.bool b)) => .ok (some (.bool b))
    | some (.lit _) => .error (.argError dname)
    | some (.varRef vn) =>
      match recordGet vars vn with
      | none => .error (.argError dname)
      | some .null => .error (.argError dname)
      | some .undef => .error (.argError dname)
      | some w => .ok (some w)

/-- The check `skip?.if === true` (the strict comparison of the resolved
directive value with `true`). -/
def isSomeTrue : Option GVal → Bool
  | some (.bool true) => true
  | _ => false

/-- The check `include?.if === false`. -/
def isSomeFalse : Option GVal → Bool
  | some (.bool false) => true
  | _ => false

/-- `shouldIncludeNode` of `graphql-js`: `@skip` wins when it resolves to
`true` (the `@include` directive is then not even evaluated), otherwise
`@include` excludes the node when it resolves to `false`. -/
def shouldIncludeNode (vars : Vars) (dirs : List Directive) :
    Except PickErr Bool := do
  let skipVal ← getDirectiveIf vars dirs "skip"
  if isSomeTrue skipVal then
    return false
  else
    let includeVal ← getDirectiveIf vars dirs "include"
    if isSomeFalse includeVal then
      return false
    else
      return true

/-- `doesFragmentConditionMatch`: no type condition always matches; otherwise
the type condition resolved against the schema must be (reference-)equal to
the runtime type — in particular an unresolvable condition matches an
unresolved runtime type (`undefined === undefined`).  Abstract types
(interfaces/unions) are not declared by this repository, so the
`isAbstractType` branch of the library is never taken. -/
def doesFragmentConditionMatch (schema : SchemaM) (typeCond : Option String)
    (runtimeType : Option String) : Bool :=
  match typeCond with
  | none => true
  | some tc => getType schema tc = runtimeType

/-- The field map built by `collectFields`: entries keyed by response key
(alias or name), each holding the list of field nodes collected under that
key, both in insertion order (a JavaScript `Map` of arrays). -/
abbrev FieldMap : Type := List (String × List FieldInfo)

/-- Adds a field node under a response key, appending to the node list of an
existing entry or appending a new entry. -/
def fmapAdd : FieldMap → String → FieldInfo → FieldMap
  | [], key, f => [(key, [f])]
  | (k, fs) :: rest, key, f =>
    if k = key then (k, fs ++ [f]) :: rest else (k, fs) :: fmapAdd rest key f

/-- The loop of `collectFields` (`collectFieldsImpl`): walks the selections,
collecting included fields, splicing inline fragments whose type condition
matches, and splicing each named fragment at most once per collection (the
shared `visitedFragmentNames` set).  The fuel parameter is an embedding
artifact consumed at every step; `collectFields` below supplies fuel that is
provably sufficient for every document (the visited set bounds the real
recursion). -/
def collectGo (schema : SchemaM) (frags : Fragments) (vars : Vars)
    (runtimeType : Option String) :
    Nat → List Selection → FieldMap → List String →
    Except PickErr (FieldMap × List String)
  | 0, _, _, _ => .error .fuelOut
  | _ + 1, [], fm, visited => .ok (fm, visited)
  | fuel + 1, .field al name dirs sub :: rest, fm, visited => do
    let inc ← shouldIncludeNode vars dirs
    if inc then
      collectGo schema frags vars runtimeType fuel rest
        (fmapAdd fm (al.getD name) ⟨al, name, dirs, sub⟩) visited
    else
      collectGo schema frags vars runtimeType fuel rest fm visited
  | fuel + 1, .inlineFragment tc dirs body :: rest, fm, visited => do
    let inc ← shouldIncludeNode vars dirs
    if inc && doesFragmentConditionMatch schema tc runtimeType then do
      let (fm', vis') ← collectGo schema frags vars runtimeType fuel body fm visited
      collectGo schema frags vars runtimeType fuel rest fm' vis'
    else
      collectGo schema frags vars runtimeType fuel rest fm visited
  | fuel + 1, .fragmentSpread fname dirs :: rest, fm, visited =>
    if visited.contains fname then
      collectGo schema frags vars runtimeType fuel rest fm visited
    else do
      let inc ← shouldIncludeNode vars dirs
      if !inc then
        collectGo schema frags vars runtimeType fuel rest fm visited
      else
        let visited' := fname :: visited
        match recordGet frags fname with
        | none => collectGo schema frags vars runtimeType fuel rest fm visited'
        | some frag =>
          if doesFragmentConditionMatch schema (some frag.typeCondition) runtimeType then do
            let (fm', vis'') ←
              collectGo schema frags vars runtimeType fuel frag.selectionSet fm visited'
            collectGo schema frags vars runtimeType fuel rest fm' vis''
          else
            collectGo schema frags vars runtimeType fuel rest fm visited'

mutual

/-- Structural size of a selection (a computable measure used only for the
embedding's fuel bounds). -/
def selSize : Selection → Nat
  | .field _ _ _ none => 2
  | .field _ _ _ (some sub) => 2 + selListSize sub
  | .inlineFragment _ _ body => 2 + selListSize body
  | .fragmentSpread _ _ => 2

/-- Structural size of a selection list. -/
def selListSize : List Selection → Nat
  | [] => 1
  | s :: rest => selSize s + selListSize rest

end

/-- Combined size of all fragment bodies in a fragment table. -/
def fragsSize (frags : Fragments) : Nat :=
  List.foldl (fun acc p => acc + 1 + selListSize p.2.selectionSet) 0 frags

/-- Fuel sufficient for a full `collectFields` run: the structural size of
the selection set plus the size of the fragment table (each fragment body is
entered at most once thanks to the visited set, and the fuel consumed per
level is bounded by the size of the level). -/
def collectFuelBound (frags : Fragments) (sels : List Selection) : Nat :=
  selListSize sels + fragsSize frags

/-- `collectFields(schema, fragments, variableValues, runtimeType,
selectionSet)`: runs the collection loop with a fresh field map and a fresh
visited set. -/
def collectFields (schema : SchemaM) (frags : Fragments) (vars : Vars)
    (runtimeType : Option String) (selectionSet : List Selection) :
    Except PickErr FieldMap :=
  (collectGo schema frags vars runtimeType
      (collectFuelBound frags selectionSet) selectionSet [] []).map Prod.fst

/-- The runtime-type inference of `pickField`: the value of a string-valued
`__typename` property resolved against the schema, and unresolved
(`undefined`) for a missing or non-string `__typename`. -/
def resolveRuntimeType (store : Store) (schema : SchemaM) (v : GVal) :
    Option String :=
  match getPropVal store v "__typename" with
  | .str s => getType schema s
  | _ => none

/-- The body of `pickField`, with the mutual recursion into
`pickSelectionSet` abstracted as the continuation `recurse`: when the field
node carries a selection set and the value is a non-null object, infer the
runtime type from `__typename`, fail when a non-dummy schema cannot resolve
it, and otherwise recurse; in every other case the value is returned
unchanged. -/
def pickFieldCore (store : Store) (schema : SchemaM)
    (recurse : String → GVal → List Selection → Option String →
      Except PickErr (List (String × OutVal)))
    (fieldPath : String) (fnode : FieldInfo) (fieldData : GVal) :
    Except PickErr OutVal :=
  match fnode.sub with
  | some sub =>
    if isObjectLike fieldData then
      let runtimeObject := resolveRuntimeType store schema fieldData
      if !schema.isDummy && runtimeObject.isNone then
        .error (.inferError fieldPath)
      else
        (recurse fieldPath fieldData sub runtimeObject).map OutVal.objOut
    else
      .ok (.raw fieldData)
  | none => .ok (.raw fieldData)

/-- Element-wise projection of an array-valued field
(`fieldData.map((item, i) => pick(fieldNode, item, path.name[i]))`). -/
def pickItemsGo (pf : String → GVal → Except PickErr OutVal)
    (fieldPathBase : String) : List GVal → Nat → Except PickErr (List OutVal)
  | [], _ => .ok []
  | item :: rest, i => do
    let v ← pf (fieldPathBase ++ "[" ++ toString i ++ "]") item
    let vs ← pickItemsGo pf fieldPathBase rest (i + 1)
    .ok (v :: vs)

/-- The projection loop over the flattened field map
(`fieldMap.values()` then each node list): reads the field off the payload,
maps arrays element-wise, and writes the result into the picked-data object
(later nodes under the same name overwrite). -/
def pickNodesGo (store : Store) (path : String) (data : GVal)
    (pf : String → FieldInfo → GVal → Except PickErr OutVal) :
    List FieldInfo → List (String × OutVal) →
    Except PickErr (List (String × OutVal))
  | [], acc => .ok acc
  | fnode :: rest, acc => do
    let fieldData := getPropVal store data fnode.name
    let picked ←
      match fieldData with
      | .arr items => do
        let outs ← pickItemsGo (fun p v => pf p fnode v)
          (path ++ "." ++ fnode.name) items 0
        pure (OutVal.arrOut outs)
      | _ => pf (path ++ "." ++ fnode.name) fnode fieldData
    pickNodesGo store path data pf rest (recordSet acc fnode.name picked)

/-- `pickSelectionSet`: collects the field map for the selection set and
projects each collected field node off the payload object.  The fuel
parameter bounds the depth of the payload-graph recursion performed through
`pickField`; every recursive call uses one unit. -/
def pickSelectionSetF :
    Nat → Store → SchemaM → Fragments → Vars → String → GVal →
    List Selection → Option String → Except PickErr (List (String × OutVal))
  | 0, _, _, _, _, _, _, _, _ => .error .fuelOut
  | fuel + 1, store, schema, frags, vars, path, data, selectionSet, runtimeObject => do
    let fieldMap ← collectFields schema frags vars runtimeObject selectionSet
    pickNodesGo store path data
      (fun fieldPath fnode fieldData =>
        pickFieldCore store schema
          (fun p d ss rt => pickSelectionSetF fuel store schema frags vars p d ss rt)
          fieldPath fnode fieldData)
      ((fieldMap.map Prod.snd).flatten) []

/-- `pickField` with explicit fuel: the mutual partner of
`pickSelectionSetF`, as called for a collected field node. -/
def pickFieldF (fuel : Nat) (store : Store) (schema : SchemaM)
    (frags : Fragments) (vars : Vars) (fieldPath : String) (fnode : FieldInfo)
    (fieldData : GVal) : Except PickErr OutVal :=
  pickFieldCore store schema
    (fun p d ss rt => pickSelectionSetF fuel store schema frags vars p d ss rt)
    fieldPath fnode fieldData

/-- The reserved key under which every anonymous operation is stored
(leading underscores are reserved for internal GraphQL names). -/
def anonymousOperationKey : String := "__anonymous_operation"

/-- The key of an operation definition in the operations record:
`definition.name?.value || anonymousOperationKey` (an empty name string is
falsy and also maps to the anonymous key). -/
def opDefKey (name : Option String) : String :=
  match name with
  | some n => if n = "" then anonymousOperationKey else n
  | none => anonymousOperationKey

/-- `extractDefinitions`: partitions the document's definitions into a
fragment record keyed by fragment name and an operation record keyed by
operation name (or the anonymous key), later definitions silently
overwriting earlier ones under the same key. -/
def extractDefinitions (doc : DocumentNode) :
    Fragments × List (String × OperationDefinition) :=
  let fragments := doc.definitions.foldl
    (fun acc d =>
      match d with
      | .fragDef f => recordSet acc f.name f
      | .opDef _ => acc) []
  let operations := doc.definitions.foldl
    (fun acc d =>
      match d with
      | .opDef o => recordSet acc (opDefKey o.name) o
      | .fragDef _ => acc) []
  (fragments, operations)

/-- `pickOperationFields` with explicit fuel: resolves the operation from the
document (throwing when the lookup fails, with the message depending on
whether an operation name was passed) and projects the payload through the
operation's selection set, rooted at path `data` with the schema's root type
as runtime type. -/
def pickOperationFieldsF (fuel : Nat) (store : Store) (data : GVal)
    (doc : DocumentNode) (operationName : Option String) (vars : Vars)
    (schema : SchemaM) : Except PickErr (List (String × OutVal)) :=
  let (fragments, operations) := extractDefinitions doc
  match recordGet operations (opDefKey operationName) with
  | none =>
    .error (.unknownOperation
      (match operationName with
       | some n => if n = "" then none else some n
       | none => none))
  | some operation =>
    pickSelectionSetF fuel store schema fragments vars "data" data
      operation.selectionSet (getRootType schema operation.operation)

/-- Default fuel for a document: the document's structural size, which
bounds the payload-recursion depth of every document whose fragment
references are acyclic (a document with cyclic fragment definitions makes
the source diverge, which the embedding reports as `fuelOut`). -/
def docFuelBound (doc : DocumentNode) : Nat :=
  1 + doc.definitions.foldl
    (fun acc d =>
      match d with
      | .opDef o => acc + 1 + selListSize o.selectionSet
      | .fragDef f => acc + 1 + selListSize f.selectionSet) 0

/-- `pickOperationFields(data, documentNode, operationName, variables,
schema)` — the exported entry point (the source defaults `schema` to
`dummySchema`; the default is spelled out at call sites here). -/
def pickOperationFields (store : Store) (data : GVal) (doc : DocumentNode)
    (operationName : Option String) (vars : Vars) (schema : SchemaM) :
    Except PickErr (List (String × OutVal)) :=
  pickOperationFieldsF (docFuelBound doc) store data doc operationName vars schema

mutual

/-- No fragment spread occurs anywhere in the selection. -/
def selSpreadFree : Selection → Bool
  | .field _ _ _ none => true
  | .field _ _ _ (some sub) => selListSpreadFree sub
  | .inlineFragment _ _ body => selListSpreadFree body
  | .fragmentSpread _ _ => false

/-- No fragment spread occurs anywhere in the selection list. -/
def selListSpreadFree : List Selection → Bool
  | [] => true
  | s :: rest => selSpreadFree s && selListSpreadFree rest

end

mutual

/-- Static field-nesting depth of a selection: the maximal number of nested
field selection sets (inline fragments are depth-neutral; fragment spreads
contribute nothing and are covered by the spread-free hypotheses where this
measure is used). -/
def selFieldDepth : Selection → Nat
  | .field _ _ _ none => 1
  | .field _ _ _ (some sub) => 1 + selListFieldDepth sub
  | .inlineFragment _ _ body => selListFieldDepth body
  | .fragmentSpread _ _ => 0

/-- Static field-nesting depth of a selection list. -/
def selListFieldDepth : List Selection → Nat
  | [] => 0
  | s :: rest => max (selFieldDepth s) (selListFieldDepth rest)

end

/-!
Heap-passing variant of the projector.

The value-level embedding above returns the projected result as a tree and
never returns a changed store, so it cannot even express mutation of the
payload.  To verify the no-mutation guarantee of the source — `pickedData`
is a freshly allocated object and the only assignment target — the functions
are re-run here in an explicit heap-passing style: `const pickedData = {}`
allocates a node, `pickedData[name] = v` writes to it, and the final store
is returned so that preservation of every pre-existing node is a provable
statement rather than a modelling assumption.
-/

/-- Property assignment `store[r][k] = v`. -/
def setNodeProp (store : Store) (r : Nat) (k : String) (v : GVal) : Store :=
  store.set r (recordSet (getNode store r) k v)

/-- Heap-passing element-wise projection of an array-valued field. -/
def pickItemsGoH (pfH : Store → String → GVal → Store × Except PickErr GVal)
    (fieldPathBase : String) :
    Store → List GVal → Nat → Store × Except PickErr (List GVal)
  | st, [], _ => (st, .ok [])
  | st, item :: rest, i =>
    match pfH st (fieldPathBase ++ "[" ++ toString i ++ "]") item with
    | (st', .ok v) =>
      match pickItemsGoH pfH fieldPathBase st' rest (i + 1) with
      | (st'', .ok vs) => (st'', .ok (v :: vs))
      | (st'', .error e) => (st'', .error e)
    | (st', .error e) => (st', .error e)

/-- Heap-passing projection loop: reads each field off the payload in the
current store and assigns the projected value into the freshly allocated
picked-data node `pd`. -/
def pickNodesGoH (path : String) (data : GVal)
    (pfH : Store → String → FieldInfo → GVal → Store × Except PickErr GVal) :
    Store → Nat → List FieldInfo → Store × Except PickErr Unit
  | st, _, [] => (st, .ok ())
  | st, pd, fnode :: rest =>
    match getPropVal st data fnode.name with
    | .arr items =>
      match pickItemsGoH (fun s p v => pfH s p fnode v)
          (path ++ "." ++ fnode.name) st items 0 with
      | (st', .ok outs) =>
        pickNodesGoH path data pfH (setNodeProp st' pd fnode.name (.arr outs)) pd rest
      | (st', .error e) => (st', .error e)
    | fieldData =>
      match pfH st (path ++ "." ++ fnode.name) fnode fieldData with
      | (st', .ok v) =>
        pickNodesGoH path data pfH (setNodeProp st' pd fnode.name v) pd rest
      | (st', .error e) => (st', .error e)

/-- Heap-passing `pickField` body: values that are not recursed into are
passed through unchanged (object references keep referring to the input
graph, exactly as in the source). -/
def pickFieldCoreH (schema : SchemaM)
    (recurse : Store → String → GVal → List Selection → Option String →
      Store × Except PickErr GVal)
    (st : Store) (fieldPath : String) (fnode : FieldInfo) (fieldData : GVal) :
    Store × Except PickErr GVal :=
  match fnode.sub with
  | some sub =>
    if isObjectLike fieldData then
      let runtimeObject := resolveRuntimeType st schema fieldData
      if !schema.isDummy && runtimeObject.isNone then
        (st, .error (.inferError fieldPath))
      else
        recurse st fieldPath fieldData sub runtimeObject
    else
      (st, .ok fieldData)
  | none => (st, .ok fieldData)

/-- Heap-passing `pickSelectionSet`: allocates the `pickedData` node and
returns a reference to it together with the final store. -/
def pickSelectionSetH :
    Nat → Store → SchemaM → Fragments → Vars → String → GVal →
    List Selection → Option String → Store × Except PickErr GVal
  | 0, st, _, _, _, _, _, _, _ => (st, .error .fuelOut)
  | fuel + 1, st, schema, frags, vars, path, data, selectionSet, runtimeObject =>
    match collectFields schema frags vars runtimeObject selectionSet with
    | .error e => (st, .error e)
    | .ok fieldMap =>
      let pd := st.length
      match pickNodesGoH path data
          (fun s fp fnode fd =>
            pickFieldCoreH schema
              (fun s' p d ss rt => pickSelectionSetH fuel s' schema frags vars p d ss rt)
              s fp fnode fd)
          (st ++ [[]]) pd ((fieldMap.map Prod.snd).flatten) with
      | (st', .ok ()) => (st', .ok (.obj pd))
      | (st', .error e) => (st', .error e)

/-- Heap-passing `pickOperationFields`. -/
def pickOperationFieldsH (fuel : Nat) (store : Store) (data : GVal)
    (doc : DocumentNode) (operationName : Option String) (vars : Vars)
    (schema : SchemaM) : Store × Except PickErr GVal :=
  let (fragments, operations) := extractDefinitions doc
  match recordGet operations (opDefKey operationName) with
  | none =>
    (store, .error (.unknownOperation
      (match operationName with
       | some n => if n = "" then none else some n
       | none => none)))
  | some operation =>
    pickSelectionSetH fuel store schema fragments vars "data" data
      operation.selectionSet (getRootType schema operation.operation)

/-!
Transport normalizer and document analyzer
(`parseGraphQLRequest.ts`, current revision: operation resolution and
variable coercion through `buildExecutionContext` against an empty schema).
-/

/-- A JSON object as an association list. -/
abbrev JRecord : Type := List (String × JVal)

/-- The slice of an intercepted request consumed by the GraphQL transport
normalizer: method, URL query parameters, parsed JSON body, and the URL
renderings produced by the external helpers (`getPublicUrlFromRequest` and
the URL passed to `matchRequestUrl`). -/
structure RequestM where
  method : String
  searchParams : List (String × String)
  body : Option JRecord
  publicUrl : String
  href : String

/-- The intermediate `GraphQLInput` shape `{ query, operationName,
variableValues }` (no field, or a `null`/falsy field, modelled as `none`/a falsy
`JVal`; operation names are modelled as strings — the only values this
repository produces for them). -/
structure GraphQLInputM where
  query : Option JVal
  operationName : Option String
  variableValues : Option JVal

/-- Property read on a parsed JSON value. -/
def jGet : JVal → String → Option JVal
  | .obj fs, k => recordGet fs k
  | _, _ => none

/-- The string or `none` result of reading an operation-name field. -/
def asOptName : Option JVal → Option String
  | some (.str s) => some s
  | _ => none

/-- The error thrown when a dot-path segment is absent: the source
interpolates the JavaScript array of leading segments, which joins with
commas. -/
def dotPathError (paths : List String) : String :=
  "Property '" ++ String.intercalate "," paths ++ "' is not in operations."

/-- Functional rendering of the in-place dot-path write
`target[lastPath] = file` performed by `extractMultipartVariables`: walk the
leading segments (failing when one is absent), then set the final
property. -/
def setDotPath (pathsAll : List String) (fv : JVal) :
    JVal → List String → String → Except String JVal
  | v, [], lastPath =>
    match v with
    | .obj fs => .ok (.obj (recordSet fs lastPath fv))
    | _ => .error (dotPathError pathsAll)
  | v, p :: rest, lastPath =>
    match v with
    | .obj fs =>
      match recordGet fs p with
      | none => .error (dotPathError pathsAll)
      | some inner => do
        let inner' ← setDotPath pathsAll fv inner rest lastPath
        .ok (.obj (recordSet fs p inner'))
    | _ => .error (dotPathError pathsAll)

/-- `extractMultipartVariables(variables, map, files)`: resolves every
dot-path of the multipart `map` inside `{ variableValues }`, replacing the
placeholder with the uploaded file reference, and returns the updated
`variableValues`; a missing file key or path segment throws. -/
def extractMultipartVariables (variableValues : JVal)
    (map : List (String × List String)) (files : JRecord) :
    Except String JVal := do
  let ops ← map.foldlM
    (fun ops entry => do
      match recordGet files entry.1 with
      | none => .error ("Given files do not have a key '" ++ entry.1 ++ "' .")
      | some fv =>
        entry.2.foldlM
          (fun o dotPath => do
            let segs := dotPath.splitOn "."
            let lastPath := (segs.getLast?).getD ""
            let paths := segs.dropLast
            setDotPath paths fv o paths lastPath)
          ops)
    (JVal.obj [("variableValues", variableValues)])
  .ok ((jGet ops "variableValues").getD .null)

/-- Decodes the parsed multipart `map` JSON into
`Record<string, string[]>` (the source trusts this shape; other shapes
contribute nothing). -/
def toOpsMap : JVal → List (String × List String)
  | .obj fs =>
    fs.map (fun p =>
      (p.1,
       match p.2 with
       | .arr items =>
         items.filterMap (fun v =>
           match v with
           | .str s => some s
           | _ => none)
       | _ => []))
  | _ => []

/-- `getGraphQLInput(request)`: extracts `{ query, operationName,
variableValues }` from a GET query string, a POST JSON body, or a POST multipart
body, returning `null` (here `none`) for anything else; `jsonParseFn` models
the `jsonParse` helper (a `JSON.parse` that returns `undefined` instead of
throwing). -/
def getGraphQLInput (jsonParseFn : String → Option JVal) (request : RequestM) :
    Except String (Option GraphQLInputM) :=
  match request.method with
  | "GET" =>
    .ok (some
      { query := (recordGet request.searchParams "query").map .str,
        operationName := recordGet request.searchParams "operationName",
        variableValues :=
          jsonParseFn ((recordGet request.searchParams "variableValues").getD "") })
  | "POST" =>
    match request.body with
    | none => .ok none
    | some bodyFields =>
      if jsTruthyOpt (recordGet bodyFields "query") then
        .ok (some
          { query := recordGet bodyFields "query",
            operationName := asOptName (recordGet bodyFields "operationName"),
            variableValues := recordGet bodyFields "variableValues" })
      else if jsTruthyOpt (recordGet bodyFields "operations") then
        let parsedOperations :=
          (match recordGet bodyFields "operations" with
           | some (.str s) => jsonParseFn s
           | _ => none).getD (.obj [])
        if !(jsTruthyOpt (jGet parsedOperations "query")) then
          .ok none
        else
          let parsedMap :=
            (match recordGet bodyFields "map" with
             | some (.str s) => jsonParseFn s
             | _ => none).getD (.obj [])
          let files := bodyFields.filter
            (fun p => !(p.1 = "operations") && !(p.1 = "map"))
          match
            (match jGet parsedOperations "variableValues" with
             | some v =>
               if jsTruthy v then
                 extractMultipartVariables v (toOpsMap parsedMap) files
               else .ok (.obj [])
             | none => .ok (.obj [])) with
          | .error e => .error e
          | .ok variableValues =>
            .ok (some
              { query := jGet parsedOperations "query",
                operationName := asOptName (jGet parsedOperations "operationName"),
                variableValues := some variableValues })
      else
        .ok none
  | _ => .ok none

/-- The operation-selection loop of `buildExecutionContext`: with no
operation name, a second operation definition fails immediately; with a
name, the last operation definition carrying that name is selected and a
missing match or empty document fails after the loop. -/
def selectOperation (operationName : Option String) :
    List DefinitionNode → Option OperationDefinition →
    Except String OperationDefinition
  | [], acc =>
    match acc with
    | some op => .ok op
    | none =>
      match operationName with
      | some n => .error ("Unknown operation named \"" ++ n ++ "\".")
      | none => .error "Must provide an operation."
  | .opDef d :: rest, acc =>
    match operationName with
    | none =>
      match acc with
      | some _ =>
        .error "Must provide operation name if query contains multiple operations."
      | none => selectOperation operationName rest (some d)
    | some n =>
      if d.name = some n then selectOperation operationName rest (some d)
      else selectOperation operationName rest acc
  | .fragDef _ :: rest, acc => selectOperation operationName rest acc

/-- The input type names resolvable against the empty schema the analyzer
passes to `buildExecutionContext` (the scalars present in every schema's
type map — see `builtinTypeNames`; the introspection types are not input
types). -/
def inputTypeNames : List String := ["String", "Boolean"]

/-- Scalar coercion of a provided variable value (`coerceInputValue`
restricted to the scalars usable here; `null` passes for nullable
types — the non-null check happens before). -/
def coerceScalar (typeName : String) (v : JVal) : Except String JVal :=
  match v with
  | .null => .ok .null
  | .str _ => if typeName = "String" then .ok v
      else .error ("Variable value is not of type \"" ++ typeName ++ "\".")
  | .bool _ => if typeName = "Boolean" then .ok v
      else .error ("Variable value is not of type \"" ++ typeName ++ "\".")
  | _ => .error ("Variable value is not of type \"" ++ typeName ++ "\".")

/-- `coerceVariableValues` against the empty schema: defaults are applied,
a missing or null value for a required variable fails, provided values are
scalar-checked.  The library reports all variable errors; this model stops
at the first, which is the only difference and is invisible to every
statement below. -/
def coerceVariableValues (varDefs : List VarDef) (inputs : JRecord) :
    Except String JRecord :=
  varDefs.foldlM
    (fun acc vd =>
      if !(vd.typeName ∈ inputTypeNames) then
        .error ("Variable \"$" ++ vd.name ++ "\" expected value of type \"" ++
          vd.typeName ++ "\" which cannot be used as an input type.")
      else
        match recordGet inputs vd.name with
        | none =>
          match vd.defaultVal with
          | some d => .ok (recordSet acc vd.name d)
          | none =>
            if vd.nonNull then
              .error ("Variable \"$" ++ vd.name ++ "\" of required type \"" ++
                vd.typeName ++ "!\" was not provided.")
            else .ok acc
        | some v =>
          match v, vd.nonNull with
          | .null, true =>
            .error ("Variable \"$" ++ vd.name ++ "\" of non-null type \"" ++
              vd.typeName ++ "!\" must not be null.")
          | _, _ => do
            let cv ← coerceScalar vd.typeName v
            .ok (recordSet acc vd.name cv))
    []

/-- The analyzer's result shape `{ operationType, operationName?,
variableValues }`. -/
structure ParsedGraphQLDocM where
  operationType : OpType
  operationName : Option String
  variableValues : JRecord
deriving Repr

/-- `parseDocumentNode(document, operationName, variables)` (current
revision): resolves the operation and coerces the variableValues through
`buildExecutionContext` with an empty schema, throwing the joined error
messages on failure. -/
def parseDocumentNode (doc : DocumentNode) (operationName : Option String)
    (variableValues : Option JVal) : Except String ParsedGraphQLDocM := do
  let operation ← selectOperation operationName doc.definitions none
  let varsRecord :=
    match variableValues with
    | some (.obj fs) => fs
    | _ => []
  let coerced ← coerceVariableValues operation.variableDefinitions varsRecord
  .ok ⟨operation.operation, operation.name, coerced⟩

/-- The analyzer's per-query result including the parsed document. -/
structure ParsedGraphQLQueryM where
  document : DocumentNode
  operationType : OpType
  operationName : Option String
  variableValues : JRecord
deriving Repr

/-- `parseQuery(query, operationName, variables)`: parse the query text with
the external parser (`parseFn` models `graphql.parse`; a non-string query
makes the parser throw) and analyze the document; any thrown error is
returned as a value (`try/catch` in the source). -/
def parseQuery (parseFn : String → Except String DocumentNode) (query : JVal)
    (operationName : Option String) (variableValues : Option JVal) :
    Except String ParsedGraphQLQueryM :=
  match query with
  | .str s =>
    match parseFn s with
    | .error e => .error e
    | .ok doc =>
      match parseDocumentNode doc operationName variableValues with
      | .error e => .error e
      | .ok p => .ok ⟨doc, p.operationType, p.operationName, p.variableValues⟩
  | _ => .error "Must provide Source. Received: unexpected value."

/-- The message of the single error `parseGraphQLRequest` throws for a
recognized-but-malformed request (`devUtils.formatMessage` adds the `[MSW]`
prefix and substitutes method, public URL and the parser's message). -/
def formatParseErrorMsg (method url parserMsg : String) : String :=
  "[MSW] Failed to intercept a GraphQL request to \"" ++ method ++ " " ++ url ++
    "\": cannot parse query. See the error message from the parser below.\n\n" ++
    parserMsg

/-- The parsed-request descriptor `{ document, operationType, operationName,
variableValues }`. -/
structure ParsedGraphQLRequestM where
  document : DocumentNode
  operationType : OpType
  operationName : Option String
  variableValues : JRecord
deriving Repr

/-- `parseGraphQLRequest(request)`: extract the GraphQL input (returning
`undefined` when the request carries none), parse and analyze it, and wrap
any parse failure in the single descriptive interception error. -/
def parseGraphQLRequest (parseFn : String → Except String DocumentNode)
    (jsonParseFn : String → Option JVal) (request : RequestM) :
    Except String (Option ParsedGraphQLRequestM) := do
  let inputOpt ← getGraphQLInput jsonParseFn request
  match inputOpt with
  | none => .ok none
  | some input =>
    if !(jsTruthyOpt input.query) then .ok none
    else
      match parseQuery parseFn (input.query.getD .null) input.operationName
          input.variableValues with
      | .error msg =>
        .error (formatParseErrorMsg request.method request.publicUrl msg)
      | .ok parsed =>
        .ok (some ⟨parsed.document, parsed.operationType, parsed.operationName,
          parsed.variableValues⟩)

/-!
Operation matcher (`GraphQLHandler#predicate`).
-/

/-- The handler's expected operation type: a concrete type or the `all`
wildcard. -/
inductive ExpectedOperationType where
  | all
  | op (t : OpType)
deriving Repr, DecidableEq

/-- The operation-name selector after construction: an exact string or a
regular expression (modelled by its `test` function; a `DocumentNode`
selector is resolved to an exact name by the constructor). -/
inductive NameSelector where
  | exact (s : String)
  | pattern (test : String → Bool)

/-- The handler information consulted by `predicate`. -/
structure GraphQLHandlerM where
  operationType : ExpectedOperationType
  operationSelector : NameSelector
  endpoint : String

/-- The observable outcome of `predicate`: its boolean result and whether
`devUtils.warn` was called (it never throws — the result type has no error
case). -/
structure PredicateOut where
  result : Bool
  warned : Bool
deriving Repr, DecidableEq

/-- Falsiness of `parsedResult.operationName` (absent or empty). -/
def nameFalsy : Option String → Bool
  | none => true
  | some s => s = ""

/-- `GraphQLHandler#predicate(request, parsedResult)`: no parsed result never
matches; an anonymous operation against a non-`all` handler warns and never
matches; otherwise the URL must match the endpoint (`matchUrlFn` models the
external `matchRequestUrl`), the operation type must be `all` or equal, and
the selector must test-match (patterns, against the name or `''`) or equal
(exact strings) the resolved operation name. -/
def predicate (matchUrlFn : String → String → Bool) (h : GraphQLHandlerM)
    (request : RequestM) (parsedResult : Option ParsedGraphQLRequestM) :
    PredicateOut :=
  match parsedResult with
  | none => ⟨false, false⟩
  | some p =>
    if nameFalsy p.operationName && !(h.operationType = .all) then
      ⟨false, true⟩
    else
      let hasMatchingUrl := matchUrlFn request.href h.endpoint
      let hasMatchingOperationType :=
        h.operationType = .all || h.operationType = .op p.operationType
      let hasMatchingOperationName :=
        match h.operationSelector with
        | .pattern test => test (p.operationName.getD "")
        | .exact s => p.operationName = some s
      ⟨hasMatchingUrl && hasMatchingOperationType && hasMatchingOperationName,
       false⟩

/-!
Concrete fixtures used by the claim theorems: payload stores, documents and
requests mirroring the repository's tests.
-/

/-- Shorthand for a field selection with no alias and no directives. -/
def plainField (n : String) (sub : Option (List Selection)) : Selection :=
  .field none n [] sub

/-- Payload `{ user: { id: '1' } }` (the `user` object has no `name`). -/
def fxC1Store : Store := [[("user", .obj 1)], [("id", .str "1")]]

/-- Document `query { user { id name } }`. -/
def fxC1Doc : DocumentNode :=
  ⟨[.opDef ⟨none, .query, [],
    [plainField "user" (some [plainField "id" none, plainField "name" none])]⟩]⟩

/-- The `jack` node of the cyclic pair (references `jill`, node 1). -/
def fxJackNode : List (String × GVal) :=
  [("__typename", .str "User"), ("id", .str "1234567890"),
   ("name", .str "Jack"), ("siblings", .arr [.obj 1]),
   ("eldestSibling", .obj 1), ("age", .num 11)]

/-- The `jill` node of the cyclic pair (references `jack`, node 0, both in
`siblings` and in `eldestSibling` — a reference cycle). -/
def fxJillNode : List (String × GVal) :=
  [("__typename", .str "User"), ("id", .str "0987654321"),
   ("name", .str "Jill"), ("siblings", .arr [.obj 0]),
   ("eldestSibling", .obj 0), ("age", .num 10)]

/-- The cyclic payload `{ user: jack }` with `jack.eldestSibling = jill` and
`jill.eldestSibling = jack`. -/
def fxCyclicStore : Store := [fxJackNode, fxJillNode, [("user", .obj 0)]]

/-- Document
`query { user { name siblings { name } eldestSibling { age } } }`. -/
def fxC2Doc : DocumentNode :=
  ⟨[.opDef ⟨none, .query, [],
    [plainField "user" (some
      [plainField "name" none,
       plainField "siblings" (some [plainField "name" none]),
       plainField "eldestSibling" (some [plainField "age" none])])]⟩]⟩

/-- The schema of the projector's tests:
`new GraphQLSchema({ types: [Account, Business] })`. -/
def fxRealSchema : SchemaM :=
  { isDummy := false, typeNames := ["Account", "Business"],
    rootQuery := none, rootMutation := none, rootSubscription := none }

/-- Document
`query { user { id } business { id employees { id } } }`. -/
def fxC3Doc : DocumentNode :=
  ⟨[.opDef ⟨none, .query, [],
    [plainField "user" (some [plainField "id" none]),
     plainField "business" (some
       [plainField "id" none,
        plainField "employees" (some [plainField "id" none])])]⟩]⟩

/-- Payload `{ user: null, business: { __typename: 'Business', id,
employees: [accountWithTypename, { id }] } }` — the second list element
omits `__typename`. -/
def fxC3Store : Store :=
  [[("user", .null), ("business", .obj 1)],
   [("__typename", .str "Business"), ("id", .str "b"),
    ("employees", .arr [.obj 2, .obj 3])],
   [("__typename", .str "Account"), ("id", .str "jack")],
   [("id", .str "jill")]]

/-- Document with an anonymous query and a named query `A`. -/
def fxMixedDoc : DocumentNode :=
  ⟨[.opDef ⟨none, .query, [], [plainField "user" none]⟩,
    .opDef ⟨some "A", .query, [], [plainField "other" none]⟩]⟩

/-- Payload whose nested object carries the built-in `__typename`
`'Boolean'` (which every `GraphQLSchema` resolves) alongside a `name`
property. -/
def fxBooleanTypenameStore : Store :=
  [[("user", .obj 1)], [("__typename", .str "Boolean"), ("name", .str "x")]]

/-- The same payload with the user-level `__typename` `'Account'`, which the
dummy schema does not resolve. -/
def fxAccountTypenameStore : Store :=
  [[("user", .obj 1)], [("__typename", .str "Account"), ("name", .str "x")]]

/-- Document `query { user { ...F } } fragment F on Account { name }`. -/
def fxC7Doc : DocumentNode :=
  ⟨[.opDef ⟨none, .query, [], [plainField "user" (some [.fragmentSpread "F" []])]⟩,
    .fragDef ⟨"F", "Account", [plainField "name" none]⟩]⟩

/-- Payload `{ user: { name: 'Jack', relationships: [business, jill] } }`
with conditional fragments on `Account` and `Business` selected over
`relationships` (the repository's conditional-fragment test). -/
def fxFragStore : Store :=
  [[("user", .obj 1)],
   [("name", .str "Jack"), ("relationships", .arr [.obj 2, .obj 3])],
   [("__typename", .str "Business"), ("id", .str "bid"), ("type", .str "SME")],
   [("__typename", .str "Account"), ("id", .str "jid"), ("name", .str "Jill")]]

/-- Document
`query { user { relationships { ...UserFields ...BusinessFields } } }` with
`fragment UserFields on Account { id name }` and
`fragment BusinessFields on Business { id type }`. -/
def fxFragDoc : DocumentNode :=
  ⟨[.opDef ⟨none, .query, [],
     [plainField "user" (some
       [plainField "relationships" (some
         [.fragmentSpread "UserFields" [], .fragmentSpread "BusinessFields" []])])]⟩,
    .fragDef ⟨"UserFields", "Account", [plainField "id" none, plainField "name" none]⟩,
    .fragDef ⟨"BusinessFields", "Business", [plainField "id" none, plainField "type" none]⟩]⟩

/-- Payload `{ user: { id: 'x' } }` for the directive table. -/
def fxDirStore (fname : String) (s : String) : Store :=
  [[("user", .obj 1)], [(fname, .str s)]]

/-- Document `query { user { <fname> @skip(if: $s) @include(if: $i) } }`. -/
def fxSkipIncludeDoc (fname : String) : DocumentNode :=
  ⟨[.opDef ⟨none, .query, [],
    [plainField "user" (some [.field none fname
      [⟨"skip", [("if", .varRef "s")]⟩, ⟨"include", [("if", .varRef "i")]⟩]
      none])]⟩]⟩

/-- Document `query { user { <fname> @skip(if: $s) } }`. -/
def fxSkipOnlyDoc (fname : String) : DocumentNode :=
  ⟨[.opDef ⟨none, .query, [],
    [plainField "user" (some [.field none fname
      [⟨"skip", [("if", .varRef "s")]⟩] none])]⟩]⟩

/-- Document `query { user { <fname> @include(if: $i) } }`. -/
def fxIncludeOnlyDoc (fname : String) : DocumentNode :=
  ⟨[.opDef ⟨none, .query, [],
    [plainField "user" (some [.field none fname
      [⟨"include", [("if", .varRef "i")]⟩] none])]⟩]⟩

/-- A GET request to the GraphQL endpoint with no query parameter. -/
def fxGetNoQueryRequest : RequestM :=
  { method := "GET", searchParams := [], body := none,
    publicUrl := "http://localhost:8080/graphql",
    href := "http://localhost:8080/graphql" }

/-- A POST request whose JSON body has no `query` and no `operations`. -/
def fxPostNoQueryRequest : RequestM :=
  { method := "POST", searchParams := [], body := some [("queryUser", .bool true)],
    publicUrl := "http://localhost:8080/graphql",
    href := "http://localhost:8080/graphql" }

/-- A GET request carrying a (syntactically broken) query parameter. -/
def fxGetBadQueryRequest : RequestM :=
  { method := "GET", searchParams := [("query", "mutation Login() \x7b user \x7b \x7b\x7d")],
    body := none, publicUrl := "http://localhost:8080/graphql",
    href := "http://localhost:8080/graphql" }

/-- A parsed anonymous query request (as produced for
`query { user { id } }`). -/
def fxAnonParsed : ParsedGraphQLRequestM :=
  ⟨⟨[.opDef ⟨none, .query, [], [plainField "user" none]⟩]⟩, .query, none, []⟩

/-- A handler expecting a `query` with a match-all name pattern on a
wildcard endpoint. -/
def fxQueryPatternHandler : GraphQLHandlerM :=
  ⟨.op .query, .pattern (fun _ => true), "*"⟩

/-- The operation definitions of a definition list, in order. -/
def opDefs (defs : List DefinitionNode) : List OperationDefinition :=
  defs.filterMap (fun d =>
    match d with
    | .opDef o => some o
    | .fragDef _ => none)

/-- Whether some operation definition is anonymous. -/
def hasAnonOp (defs : List DefinitionNode) : Bool :=
  defs.any (fun d =>
    match d with
    | .opDef o => o.name.isNone
    | .fragDef _ => false)

/-- The last operation definition named `n` in the list, if any. -/
def lastNamedOp (n : String) : List DefinitionNode → Option OperationDefinition
  | [] => none
  | d :: rest =>
    match lastNamedOp n rest with
    | some o => some o
    | none =>
      match d with
      | .opDef o => if o.name = some n then some o else none
      | .fragDef _ => none

/-- The last operation definition stored under record key `key`
(anonymous operations all map to `anonymousOperationKey`). -/
def lastOpWithKey (key : String) : List DefinitionNode → Option OperationDefinition
  | [] => none
  | d :: rest =>
    match lastOpWithKey key rest with
    | some o => some o
    | none =>
      match d with
      | .opDef o => if opDefKey o.name = key then some o else none
      | .fragDef _ => none

/-- The last fragment definition named `nm` in the list, if any. -/
def lastFragNamed (nm : String) : List DefinitionNode → Option FragmentDefinition
  | [] => none
  | d :: rest =>
    match lastFragNamed nm rest with
    | some f => some f
    | none =>
      match d with
      | .fragDef f => if f.name = nm then some f else none
      | .opDef _ => none

/-- A parsed named-query request used by witnesses. -/
def fxNamedParsed : ParsedGraphQLRequestM := ⟨fxMixedDoc, .query, some "A", []⟩

/-- The flattened field-node list of a field map (the iteration order of
`pickSelectionSet`). -/
def fmNodes (fm : FieldMap) : List FieldInfo :=
  (fm.map Prod.snd).flatten

/-- The structural facts about a collected field node needed to bound the
projector's recursion: its sub-selection set (if any) is spread-free and
strictly shallower than `d`. -/
def okFieldInfo (d : Nat) (f : FieldInfo) : Prop :=
  ∀ sub, f.sub = some sub →
    selListSpreadFree sub = true ∧ selListFieldDepth sub + 1 ≤ d

/-- Preservation of every pre-existing store node: the projector may only
grow the heap, never change a node the caller allocated. -/
def framePreserved (st st' : Store) : Prop :=
  st.length ≤ st'.length ∧ ∀ i, i < st.length → st'[i]? = st[i]?

/-- Preservation of every pre-existing node except the one the current
`pickedData` writes go to. -/
def framePreservedExcept (pd : Nat) (st st' : Store) : Prop :=
  st.length ≤ st'.length ∧ ∀ i, i < st.length → i ≠ pd → st'[i]? = st[i]?

/-- A type condition describable as unresolvable: it names neither a
schema-declared type nor one of the built-in names every `GraphQLSchema`
resolves (no condition at all counts too, trivially). -/
def condNotResolvable (schema : SchemaM) (tc : Option String) : Bool :=
  match tc with
  | none => true
  | some t => !(schema.typeNames.contains t) && !(builtinTypeNames.contains t)

mutual

/-- Every type condition reachable by the collection loop inside this
selection (its own and those of nested inline-fragment bodies) is
unresolvable. -/
def selCondsFree (schema : SchemaM) : Selection → Bool
  | .field _ _ _ _ => true
  | .inlineFragment tc _ body =>
    condNotResolvable schema tc && selListCondsFree schema body
  | .fragmentSpread _ _ => true

/-- `selCondsFree` over a selection list. -/
def selListCondsFree (schema : SchemaM) : List Selection → Bool
  | [] => true
  | s :: rest => selCondsFree schema s && selListCondsFree schema rest

end

/-- Every fragment in the table has an unresolvable type condition and a
condition-free body. -/
def fragsCondsFree (schema : SchemaM) (frags : Fragments) : Bool :=
  frags.all (fun p => condNotResolvable schema (some p.2.typeCondition)
    && selListCondsFree schema p.2.selectionSet)

/-- Specification-side collection loop for the amended C7, written from the
spec's words: identical to `collectGo` except that every type condition is
ignored — inline fragments and named fragments are spliced in
unconditionally, subject only to the `@skip`/`@include` directives and the
visited-fragment set. -/
def collectCombinedGo (schema : SchemaM) (frags : Fragments) (vars : Vars) :
    Nat → List Selection → FieldMap → List String →
    Except PickErr (FieldMap × List String)
  | 0, _, _, _ => .error .fuelOut
  | _ + 1, [], fm, visited => .ok (fm, visited)
  | fuel + 1, .field al name dirs sub :: rest, fm, visited => do
    let inc ← shouldIncludeNode vars dirs
    if inc then
      collectCombinedGo schema frags vars fuel rest
        (fmapAdd fm (al.getD name) ⟨al, name, dirs, sub⟩) visited
    else
      collectCombinedGo schema frags vars fuel rest fm visited
  | fuel + 1, .inlineFragment _ dirs body :: rest, fm, visited => do
    let inc ← shouldIncludeNode vars dirs
    if inc then do
      let (fm1, vis1) ← collectCombinedGo schema frags vars fuel body fm visited
      collectCombinedGo schema frags vars fuel rest fm1 vis1
    else
      collectCombinedGo schema frags vars fuel rest fm visited
  | fuel + 1, .fragmentSpread fname dirs :: rest, fm, visited =>
    if visited.contains fname then
      collectCombinedGo schema frags vars fuel rest fm visited
    else do
      let inc ← shouldIncludeNode vars dirs
      if !inc then
        collectCombinedGo schema frags vars fuel rest fm visited
      else
        let visited1 := fname :: visited
        match recordGet frags fname with
        | none => collectCombinedGo schema frags vars fuel rest fm visited1
        | some frag => do
          let (fm1, vis1) ←
            collectCombinedGo schema frags vars fuel frag.selectionSet fm visited1
          collectCombinedGo schema frags vars fuel rest fm1 vis1

/-!
Claim theorems.
-/

/-- C1.  The claim states that a selected field absent from the payload
object is omitted from the projected result at every depth, with no key even
bound to `undefined` — as the specification asserts and as the repository's
own test `picks combined fields from conditional fragments`
(`pickOperationFields.test.ts`, using `toStrictEqual`) requires.  The code
drops the `hasOwnProperty` guard that the previous revision of
`pickSelectionSet` had, so reading the absent field yields `undefined` and
the assignment `pickedData[fieldNode.name.value] = undefined` creates an own
property: projecting `{ user: { id: '1' } }` through
`query { user { id name } }` yields a `user` object that carries the key
`name` bound to `undefined` (first conjunct), although `name` is not an own
property of the payload object (second conjunct); the third conjunct reads
the offending key back off the result. -/
theorem claim1_absent_field_key_bound_to_undefined :
    pickOperationFields fxC1Store (.obj 0) fxC1Doc none [] dummySchema =
      .ok [("user", .objOut [("id", .raw (.str "1")), ("name", .raw .undef)])]
    ∧ recordGet (getNode fxC1Store 1) "name" = none
    ∧ recordGet [("id", OutVal.raw (.str "1")), ("name", OutVal.raw .undef)] "name" =
        some (.raw .undef) :=
  ⟨rfl, rfl, rfl⟩

/-- C5 counterexample.  The claim states that resolution fails for *every*
supplied operation name whenever the document holds multiple operation
definitions with at least one anonymous.  The current analyzer delegates to
`buildExecutionContext`, which skips non-matching (including anonymous)
definitions when a name is supplied: on a document with an anonymous query
and a named query `A`, passing `A` succeeds. -/
theorem claim5_counterexample :
    parseDocumentNode fxMixedDoc (some "A") none = .ok ⟨.query, some "A", []⟩ :=
  rfl

/-- C7 counterexample.  The claim states that in schema-less mode every
field of every conditional branch that exists on the payload object appears
in the projection, independent of the object's `__typename`.  But the dummy
`new GraphQLSchema({})` still resolves the built-in type names (`Boolean`,
`String`, the introspection types), so an object with `__typename:
'Boolean'` gets a resolved runtime type against which the `on Account`
condition fails: its `name` field is present on the object and selected by
the branch (second conjunct) yet dropped from the projection (first
conjunct), while the same payload with the unresolvable `__typename:
'Account'` keeps it (third conjunct). -/
theorem claim7_counterexample :
    pickOperationFields fxBooleanTypenameStore (.obj 0) fxC7Doc none [] dummySchema =
      .ok [("user", .objOut [])]
    ∧ recordGet (getNode fxBooleanTypenameStore 1) "name" = some (.str "x")
    ∧ pickOperationFields fxAccountTypenameStore (.obj 0) fxC7Doc none [] dummySchema =
        .ok [("user", .objOut [("name", .raw (.str "x"))])] :=
  ⟨rfl, rfl, rfl⟩

/-- C8 counterexample.  The claim's `if and only if` fails in the
right-to-left direction: for an anonymous parsed operation, a non-`all`
handler whose name selector is a pattern matching everything (so the
operation-name selector test-matches), with a matching URL and operation
type, all four enumerated conditions hold (conjuncts two to four) yet
`predicate` returns `false` — via the early anonymous-operation rejection,
which also emits the warning (first conjunct). -/
theorem claim8_counterexample :
    predicate (fun _ _ => true) fxQueryPatternHandler fxGetNoQueryRequest
        (some fxAnonParsed) = ⟨false, true⟩
    ∧ (fun (_ : String) (_ : String) => true) fxGetNoQueryRequest.href
        fxQueryPatternHandler.endpoint = true
    ∧ fxQueryPatternHandler.operationType = .op fxAnonParsed.operationType
    ∧ (fun (_ : String) => true) (fxAnonParsed.operationName.getD "") = true :=
  ⟨rfl, rfl, rfl, rfl⟩

/-- C8 amended.  `predicate` returns `true` exactly when a parsed result
exists, the anonymous-operation rejection does not fire (the parsed
operation has a non-empty name or the handler's operation type is `all`),
the URL matches the endpoint, the operation type is `all` or equal, and the
name selector matches (`test` of the resolved name — `''` when anonymous —
for patterns, strict equality for exact strings); and whenever the parsed
operation has no (non-empty) name and the operation type is not `all`,
`predicate` returns `false` with the warning emitted, never throwing (its
result type has no error outcome). -/
theorem claim8_amended_predicate_characterization :
    ∀ (matchUrlFn : String → String → Bool) (h : GraphQLHandlerM)
      (request : RequestM) (parsedResult : Option ParsedGraphQLRequestM),
      ((predicate matchUrlFn h request parsedResult).result = true ↔
        ∃ p, parsedResult = some p
          ∧ ¬(nameFalsy p.operationName = true ∧ h.operationType ≠ .all)
          ∧ matchUrlFn request.href h.endpoint = true
          ∧ (h.operationType = .all ∨ h.operationType = .op p.operationType)
          ∧ (match h.operationSelector with
             | .pattern test => test (p.operationName.getD "") = true
             | .exact s => p.operationName = some s))
      ∧ (∀ p, parsedResult = some p → nameFalsy p.operationName = true →
          h.operationType ≠ .all →
          predicate matchUrlFn h request parsedResult = ⟨false, true⟩) := by
  intro matchUrlFn h request parsedResult
  constructor
  · cases parsedResult with
    | none => simp [predicate]
    | some p =>
      by_cases hanon : nameFalsy p.operationName = true ∧ h.operationType ≠ .all
      · have hcond : (nameFalsy p.operationName && !(h.operationType = .all)) = true := by
          rcases hanon with ⟨h1, h2⟩
          simp [h1, h2]
        simp only [predicate, hcond, if_true]
        constructor
        · intro hfalse; cases hfalse
        · rintro ⟨p', hp', hrej, _⟩
          cases hp'
          exact absurd hanon hrej
      · have hcond : (nameFalsy p.operationName && !(h.operationType = .all)) = false := by
          rcases Decidable.not_and_iff_or_not.mp hanon with h1 | h1
          · simp [eq_false_of_ne_true h1]
          · have : h.operationType = .all := not_not.mp h1
            simp [this]
        simp only [predicate, hcond, Bool.false_eq_true, if_false]
        simp only [Bool.and_eq_true, Bool.or_eq_true, decide_eq_true_eq]
        constructor
        · rintro ⟨⟨hurl, htype⟩, hname⟩
          refine ⟨p, rfl, hanon, hurl, htype, ?_⟩
          cases hsel : h.operationSelector with
          | pattern test => simpa [hsel] using hname
          | exact sName => simpa [hsel] using hname
        · rintro ⟨p', hp', _, hurl, htype, hname⟩
          cases hp'
          refine ⟨⟨hurl, htype⟩, ?_⟩
          cases hsel : h.operationSelector with
          | pattern test => simpa [hsel] using hname
          | exact sName => simpa [hsel] using hname
  · intro p hp h1 h2
    cases hp
    have hcond : (nameFalsy p.operationName && !(h.operationType = .all)) = true := by
      simp [h1, h2]
    simp [predicate, hcond]

theorem selectOperation_none_of_two (defs : List DefinitionNode) :
    ∀ acc : Option OperationDefinition,
    2 ≤ (opDefs defs).length + (match acc with
        | some _ => 1
        | none => 0) →
    selectOperation none defs acc =
      .error "Must provide operation name if query contains multiple operations." := by
  induction defs with
  | nil =>
    intro acc hle
    cases acc <;> simp [opDefs] at hle
  | cons d rest ih =>
    intro acc hle
    cases d with
    | opDef o =>
      cases acc with
      | some a => simp [selectOperation]
      | none =>
        have hops : opDefs (DefinitionNode.opDef o :: rest) = o :: opDefs rest := by
          simp [opDefs]
        rw [hops] at hle
        simp only [List.length_cons] at hle
        simp only [selectOperation]
        refine ih (some o) ?_
        show 2 ≤ (opDefs rest).length + 1
        omega
    | fragDef f =>
      have hops : opDefs (DefinitionNode.fragDef f :: rest) = opDefs rest := by
        simp [opDefs]
      rw [hops] at hle
      simp only [selectOperation]
      exact ih acc hle

theorem selectOperation_some_eq (n : String) (defs : List DefinitionNode) :
    ∀ acc, selectOperation (some n) defs acc =
      (match lastNamedOp n defs with
       | some op => .ok op
       | none =>
         match acc with
         | some a => .ok a
         | none => .error ("Unknown operation named \"" ++ n ++ "\".")) := by
  induction defs with
  | nil => intro acc; simp [selectOperation, lastNamedOp]
  | cons d rest ih =>
    intro acc
    cases d with
    | opDef o =>
      by_cases hn : o.name = some n
      · simp only [selectOperation, hn, if_true, ih (some o), lastNamedOp]
        cases lastNamedOp n rest <;> simp [hn]
      · simp only [selectOperation, hn, if_false, ih acc, lastNamedOp]
        cases lastNamedOp n rest <;> simp [hn]
    | fragDef f =>
      simp only [selectOperation, ih acc, lastNamedOp]
      cases lastNamedOp n rest <;> simp

/-- C5 amended.  With multiple operation definitions (in particular when one
is anonymous), resolution fails with `Must provide operation name if query
contains multiple operations.` when *no* operation name is supplied; but a
supplied name that matches a named operation definition resolves
successfully — the anonymous definitions are simply skipped — provided the
selected operation's variables coerce (here: it declares none). -/
theorem claim5_amended_anonymous_among_multiple :
    ∀ (defs : List DefinitionNode) (variableValues : Option JVal),
      (2 ≤ (opDefs defs).length → hasAnonOp defs = true →
        parseDocumentNode ⟨defs⟩ none variableValues =
          .error "Must provide operation name if query contains multiple operations.")
      ∧ (∀ n op, lastNamedOp n defs = some op → op.variableDefinitions = [] →
          parseDocumentNode ⟨defs⟩ (some n) variableValues =
            .ok ⟨op.operation, op.name, []⟩) := by
  intro defs variableValues
  constructor
  · intro hlen _
    have hsel := selectOperation_none_of_two defs none (by omega)
    simp [parseDocumentNode, hsel, Bind.bind, Except.bind]
  · intro n op hlast hvd
    have hsel := selectOperation_some_eq n defs none
    rw [hlast] at hsel
    simp [parseDocumentNode, hsel, hvd, coerceVariableValues, Bind.bind,
      Except.bind, Pure.pure, Except.pure]

theorem recordGet_recordSet {α : Type} (l : List (String × α)) (k key : String)
    (v : α) :
    recordGet (recordSet l k v) key =
      if k = key then some v else recordGet l key := by
  induction l with
  | nil =>
    simp only [recordSet, recordGet]
  | cons head rest ih =>
    obtain ⟨k', v'⟩ := head
    by_cases hk : k' = k
    · subst hk
      simp only [recordSet, if_pos rfl, recordGet]
      by_cases hkey : k' = key <;> simp [hkey]
    · simp only [recordSet, if_neg hk, recordGet]
      by_cases hkey : k' = key
      · subst hkey
        have : ¬(k = k') := fun h => hk h.symm
        simp [this]
      · simp [hkey, ih]

theorem extractDefinitions_ops_last (defs : List DefinitionNode) (key : String) :
    ∀ acc, recordGet (defs.foldl
        (fun acc d =>
          match d with
          | .opDef o => recordSet acc (opDefKey o.name) o
          | .fragDef _ => acc) acc) key =
      (match lastOpWithKey key defs with
       | some o => some o
       | none => recordGet acc key) := by
  induction defs with
  | nil => intro acc; simp [lastOpWithKey]
  | cons d rest ih =>
    intro acc
    rw [List.foldl_cons, ih]
    cases hrest : lastOpWithKey key rest with
    | some o => simp [lastOpWithKey, hrest]
    | none =>
      cases d with
      | opDef o =>
        simp only [lastOpWithKey, hrest, recordGet_recordSet]
        by_cases hk : opDefKey o.name = key <;> simp [hk]
      | fragDef f => simp [lastOpWithKey, hrest]

theorem extractDefinitions_frags_last (defs : List DefinitionNode) (nm : String) :
    ∀ acc, recordGet (defs.foldl
        (fun acc d =>
          match d with
          | .fragDef f => recordSet acc f.name f
          | .opDef _ => acc) acc) nm =
      (match lastFragNamed nm defs with
       | some f => some f
       | none => recordGet acc nm) := by
  induction defs with
  | nil => intro acc; simp [lastFragNamed]
  | cons d rest ih =>
    intro acc
    rw [List.foldl_cons, ih]
    cases hrest : lastFragNamed nm rest with
    | some f => simp [lastFragNamed, hrest]
    | none =>
      cases d with
      | fragDef f =>
        simp only [lastFragNamed, hrest, recordGet_recordSet]
        by_cases hk : f.name = nm <;> simp [hk]
      | opDef o => simp [lastFragNamed, hrest]

/-- C10.  Extraction never fails (it is a total function); under a duplicated
operation key — two operations of the same name, or several anonymous
operations sharing `anonymousOperationKey` — the operations record keeps
exactly the definition occurring last in the document (first conjunct), the
fragments record likewise keeps the last fragment of each name (second
conjunct), and projection selects that last definition (third conjunct). -/
theorem claim10_duplicate_definitions_last_wins :
    ∀ (doc : DocumentNode) (key nm : String),
      recordGet (extractDefinitions doc).2 key = lastOpWithKey key doc.definitions
      ∧ recordGet (extractDefinitions doc).1 nm = lastFragNamed nm doc.definitions
      ∧ (∀ fuel store data operationName vars schema op,
          lastOpWithKey (opDefKey operationName) doc.definitions = some op →
          pickOperationFieldsF fuel store data doc operationName vars schema =
            pickSelectionSetF fuel store schema (extractDefinitions doc).1 vars
              "data" data op.selectionSet (getRootType schema op.operation)) := by
  intro doc key nm
  have hops : ∀ k, recordGet (extractDefinitions doc).2 k =
      lastOpWithKey k doc.definitions := by
    intro k
    have := extractDefinitions_ops_last doc.definitions k []
    simp only [extractDefinitions]
    rw [this]
    cases lastOpWithKey k doc.definitions <;> simp [recordGet]
  have hfrags : recordGet (extractDefinitions doc).1 nm =
      lastFragNamed nm doc.definitions := by
    have := extractDefinitions_frags_last doc.definitions nm []
    simp only [extractDefinitions]
    rw [this]
    cases lastFragNamed nm doc.definitions <;> simp [recordGet]
  refine ⟨hops key, hfrags, ?_⟩
  intro fuel store data operationName vars schema op hlast
  have h2 := hops (opDefKey operationName)
  rw [hlast] at h2
  simp only [pickOperationFieldsF]
  rw [h2]

/-- Witness for the amended C5 theorem at the anonymous-plus-named document:
no supplied name fails with the multiple-operations error, and the matching
name `A` resolves. -/
theorem claim5_amended_witness :
    parseDocumentNode ⟨fxMixedDoc.definitions⟩ none none =
      .error "Must provide operation name if query contains multiple operations."
    ∧ parseDocumentNode ⟨fxMixedDoc.definitions⟩ (some "A") none =
      .ok ⟨.query, some "A", []⟩ :=
  ⟨(claim5_amended_anonymous_among_multiple fxMixedDoc.definitions none).1
      (by decide) (by decide),
   (claim5_amended_anonymous_among_multiple fxMixedDoc.definitions none).2 "A"
      ⟨some "A", .query, [], [plainField "other" none]⟩ rfl rfl⟩

/-- Witness for the amended C8 theorem: a named query matching an exact
selector satisfies the characterization, and the anonymous rejection clause
fires as stated. -/
theorem claim8_amended_witness :
    (predicate (fun _ _ => true) ⟨.op .query, .exact "A", "*"⟩ fxGetNoQueryRequest
        (some fxNamedParsed)).result = true
    ∧ predicate (fun _ _ => true) fxQueryPatternHandler fxGetNoQueryRequest
        (some fxAnonParsed) = ⟨false, true⟩ :=
  ⟨(claim8_amended_predicate_characterization (fun _ _ => true)
      ⟨.op .query, .exact "A", "*"⟩ fxGetNoQueryRequest (some fxNamedParsed)).1.mpr
      ⟨fxNamedParsed, rfl, by simp [nameFalsy, fxNamedParsed], rfl, Or.inr rfl, rfl⟩,
   (claim8_amended_predicate_characterization (fun _ _ => true)
      fxQueryPatternHandler fxGetNoQueryRequest (some fxAnonParsed)).2 fxAnonParsed
      rfl rfl (by decide)⟩

/-- Witness for C10 at a document holding an anonymous query and a named
query `A`: projection with operation name `A` runs the selection set of the
last (only) definition under that key. -/
theorem claim10_witness :
    pickOperationFieldsF 3 fxC1Store (.obj 0) fxMixedDoc (some "A") [] dummySchema =
      pickSelectionSetF 3 fxC1Store dummySchema (extractDefinitions fxMixedDoc).1 []
        "data" (.obj 0) [plainField "other" none] (getRootType dummySchema .query) :=
  (claim10_duplicate_definitions_last_wins fxMixedDoc "A" "F").2.2 3 fxC1Store
    (.obj 0) (some "A") [] dummySchema
    ⟨some "A", .query, [], [plainField "other" none]⟩ rfl

theorem getGraphQLInput_silent (jsonParseFn : String → Option JVal)
    (request : RequestM)
    (hget : request.method = "GET" →
      recordGet request.searchParams "query" = none ∨
      recordGet request.searchParams "query" = some "")
    (hpost : request.method = "POST" → ∀ b, request.body = some b →
      jsTruthyOpt (recordGet b "query") = false ∧
      jsTruthyOpt (recordGet b "operations") = false) :
    getGraphQLInput jsonParseFn request = .ok none ∨
    ∃ input, getGraphQLInput jsonParseFn request = .ok (some input) ∧
      jsTruthyOpt input.query = false := by
  unfold getGraphQLInput
  split
  · next hm =>
    rcases hget hm with hq | hq <;>
      exact Or.inr ⟨_, rfl, by simp [hq, jsTruthyOpt, jsTruthy]⟩
  · next hm =>
    cases hb : request.body with
    | none => exact Or.inl (by simp)
    | some b =>
      obtain ⟨hq, hops⟩ := hpost hm b hb
      simp [hb, hq, hops]
  · exact Or.inl rfl

/-- C4.  First conjunct: for any request carrying no recognizable query
field (GET with no — or an empty — `query` parameter; POST whose body has a
falsy `query` and a falsy `operations`; any other method),
`parseGraphQLRequest` returns `undefined` and throws nothing (the `.ok none`
outcome).  Second conjunct: when the request is recognized (an extracted
input with a truthy string query) but the external parser rejects the query
text with message `m`, `parseGraphQLRequest` throws exactly one error whose
message names the request's method and public URL and wraps `m`
(`formatParseErrorMsg`). -/
theorem claim4_unrecognized_silent_malformed_loud :
    ∀ (parseFn : String → Except String DocumentNode)
      (jsonParseFn : String → Option JVal) (request : RequestM),
      ((request.method = "GET" →
          recordGet request.searchParams "query" = none ∨
          recordGet request.searchParams "query" = some "") →
       (request.method = "POST" → ∀ b, request.body = some b →
          jsTruthyOpt (recordGet b "query") = false ∧
          jsTruthyOpt (recordGet b "operations") = false) →
       parseGraphQLRequest parseFn jsonParseFn request = .ok none)
    ∧ (∀ input q m,
        getGraphQLInput jsonParseFn request = .ok (some input) →
        input.query = some (.str q) → q ≠ "" →
        parseFn q = .error m →
        parseGraphQLRequest parseFn jsonParseFn request =
          .error (formatParseErrorMsg request.method request.publicUrl m)) := by
  intro parseFn jsonParseFn request
  constructor
  · intro hget hpost
    rcases getGraphQLInput_silent jsonParseFn request hget hpost with h | ⟨input, h, hfalsy⟩
    · simp [parseGraphQLRequest, h, Bind.bind, Except.bind]
    · simp [parseGraphQLRequest, h, hfalsy, Bind.bind, Except.bind]
  · intro input q m hin hq hne hparse
    simp [parseGraphQLRequest, hin, hq, jsTruthyOpt, jsTruthy, hne, parseQuery,
      hparse, Bind.bind, Except.bind]

/-- Witness for C4: a GET without a query parameter and a POST whose body
has neither `query` nor `operations` pass through silently; a GET with a
broken query throws the formatted error wrapping the parser message. -/
theorem claim4_witness :
    parseGraphQLRequest (fun _ => .error "Syntax Error: Expected Name, found end of input.")
        (fun _ => none) fxGetNoQueryRequest = .ok none
    ∧ parseGraphQLRequest (fun _ => .error "Syntax Error: Expected Name, found end of input.")
        (fun _ => none) fxPostNoQueryRequest = .ok none
    ∧ parseGraphQLRequest (fun _ => .error "Syntax Error: Expected Name, found end of input.")
        (fun _ => none) fxGetBadQueryRequest =
      .error (formatParseErrorMsg "GET" "http://localhost:8080/graphql"
        "Syntax Error: Expected Name, found end of input.") := by
  refine ⟨?_, ?_, ?_⟩
  · exact (claim4_unrecognized_silent_malformed_loud _ _ fxGetNoQueryRequest).1
      (fun _ => Or.inl rfl) (fun h => absurd h (by decide))
  · exact (claim4_unrecognized_silent_malformed_loud _ _ fxPostNoQueryRequest).1
      (fun h => absurd h (by decide))
      (fun _ b hb => by cases hb; exact ⟨rfl, rfl⟩)
  · exact (claim4_unrecognized_silent_malformed_loud _ _ fxGetBadQueryRequest).2
      ⟨some (.str "mutation Login() \x7b user \x7b \x7b\x7d"), none, none⟩
      "mutation Login() \x7b user \x7b \x7b\x7d"
      "Syntax Error: Expected Name, found end of input."
      rfl rfl (by decide) rfl

set_option maxHeartbeats 2000000 in
/-- C6.  The `@skip`/`@include` table: with both directives bound to boolean
runtime variables `$s`/`$i`, the projected `user` object contains the field
exactly when `$s` is false and `$i` is true (`@skip(if: true)` removes the
field even when `@include(if: true)` is present); with `@skip` alone, exactly
when `$s` is false; with `@include` alone, exactly when `$i` is true — for
every field name and value, over all boolean combinations. -/
theorem claim6_skip_include_directives :
    ∀ (bs bi : Bool) (fname s : String),
      pickOperationFields (fxDirStore fname s) (.obj 0) (fxSkipIncludeDoc fname) none
          [("s", .bool bs), ("i", .bool bi)] dummySchema =
        .ok [("user", .objOut (if !bs && bi then [(fname, .raw (.str s))] else []))]
      ∧ pickOperationFields (fxDirStore fname s) (.obj 0) (fxSkipOnlyDoc fname) none
          [("s", .bool bs)] dummySchema =
        .ok [("user", .objOut (if !bs then [(fname, .raw (.str s))] else []))]
      ∧ pickOperationFields (fxDirStore fname s) (.obj 0) (fxIncludeOnlyDoc fname) none
          [("i", .bool bi)] dummySchema =
        .ok [("user", .objOut (if bi then [(fname, .raw (.str s))] else []))] := by
  intro bs bi fname s
  refine ⟨?_, ?_, ?_⟩ <;> cases bs <;> cases bi <;>
    simp [pickOperationFields, pickOperationFieldsF, docFuelBound, selListSize,
      selSize, extractDefinitions, opDefKey, anonymousOperationKey, recordGet,
      recordSet, pickSelectionSetF, collectFields, collectFuelBound, fragsSize,
      collectGo, shouldIncludeNode, getDirectiveIf, isSomeTrue, isSomeFalse,
      fmapAdd, pickNodesGo, pickItemsGo, pickFieldCore, getPropVal, getNode,
      isObjectLike, resolveRuntimeType, getType, getRootType, dummySchema,
      doesFragmentConditionMatch, fxDirStore, fxSkipIncludeDoc, fxSkipOnlyDoc,
      fxIncludeOnlyDoc, plainField, Bind.bind, Except.bind, Pure.pure,
      Except.pure, Except.map, List.find?, builtinTypeNames]

theorem getDirectiveIf_error_shape {vars : Vars} {dirs : List Directive}
    {dname : String} {e : PickErr} (h : getDirectiveIf vars dirs dname = .error e) :
    e = .argError dname := by
  unfold getDirectiveIf at h
  split at h
  · cases h
  · split at h <;> first
      | (cases h; rfl)
      | cases h
      | (split at h <;> first | (cases h; rfl) | cases h)

theorem shouldIncludeNode_error_shape {vars : Vars} {dirs : List Directive}
    {e : PickErr} (h : shouldIncludeNode vars dirs = .error e) :
    e = .argError "skip" ∨ e = .argError "include" := by
  unfold shouldIncludeNode at h
  simp only [Bind.bind, Except.bind] at h
  cases hskip : getDirectiveIf vars dirs "skip" with
  | error e' =>
    rw [hskip] at h
    cases h
    exact Or.inl (getDirectiveIf_error_shape hskip)
  | ok v =>
    rw [hskip] at h
    by_cases hv : isSomeTrue v = true
    · simp [hv, Pure.pure, Except.pure] at h
    · simp only [hv, Bool.false_eq_true, if_false] at h
      cases hinc : getDirectiveIf vars dirs "include" with
      | error e' =>
        rw [hinc] at h
        cases h
        exact Or.inr (getDirectiveIf_error_shape hinc)
      | ok w =>
        rw [hinc] at h
        by_cases hw : isSomeFalse w = true <;>
          simp [hw, Pure.pure, Except.pure] at h

theorem two_le_selSize (s : Selection) : 2 ≤ selSize s := by
  cases s with
  | field al name dirs sub => cases sub <;> simp [selSize]
  | inlineFragment tc dirs body => simp [selSize]
  | fragmentSpread n dirs => simp [selSize]

theorem collectGo_spreadFree_no_fuelOut (schema : SchemaM) (frags : Fragments)
    (vars : Vars) (rt : Option String) :
    ∀ fuel sels fm visited, selListSpreadFree sels = true →
      selListSize sels ≤ fuel →
      collectGo schema frags vars rt fuel sels fm visited ≠ .error .fuelOut := by
  intro fuel
  induction fuel with
  | zero =>
    intro sels fm visited _ hsize
    cases sels with
    | nil => simp [selListSize] at hsize
    | cons s rest =>
      have h2 := two_le_selSize s
      simp [selListSize] at hsize
      omega
  | succ fuel ih =>
    intro sels fm visited hsf hsize
    cases sels with
    | nil => simp [collectGo]
    | cons sel rest =>
      cases sel with
      | field al name dirs sub =>
        have hsf' : selListSpreadFree rest = true := by
          cases sub <;> simp_all [selListSpreadFree, selSpreadFree, Bool.and_eq_true]
        have hsz : selListSize rest ≤ fuel := by
          cases sub <;> (simp [selListSize, selSize] at hsize; omega)
        simp only [collectGo, Bind.bind, Except.bind]
        cases h : shouldIncludeNode vars dirs with
        | error e =>
          intro hcontra
          cases hcontra
          rcases shouldIncludeNode_error_shape h with h' | h' <;> cases h'
        | ok inc =>
          cases inc <;> simp only [if_true, if_false, Bool.false_eq_true] <;>
            exact ih rest _ visited hsf' hsz
      | inlineFragment tc dirs body =>
        have hsfb : selListSpreadFree body = true ∧ selListSpreadFree rest = true := by
          simp_all [selListSpreadFree, selSpreadFree, Bool.and_eq_true]
        have hszb : selListSize body ≤ fuel ∧ selListSize rest ≤ fuel := by
          simp [selListSize, selSize] at hsize
          omega
        simp only [collectGo, Bind.bind, Except.bind]
        cases h : shouldIncludeNode vars dirs with
        | error e =>
          intro hcontra
          cases hcontra
          rcases shouldIncludeNode_error_shape h with h' | h' <;> cases h'
        | ok inc =>
          by_cases hc : (inc && doesFragmentConditionMatch schema tc rt) = true
          · simp only [hc, if_true]
            cases hb : collectGo schema frags vars rt fuel body fm visited with
            | error e =>
              intro hcontra
              cases hcontra
              exact ih body fm visited hsfb.1 hszb.1 hb
            | ok p =>
              exact ih rest p.1 p.2 hsfb.2 hszb.2
          · simp only [hc, Bool.false_eq_true, if_false]
            exact ih rest fm visited hsfb.2 hszb.2
      | fragmentSpread fname dirs =>
        simp [selListSpreadFree, selSpreadFree] at hsf

theorem fmNodes_cons (k : String) (fs : List FieldInfo) (rest : FieldMap) :
    fmNodes ((k, fs) :: rest) = fs ++ fmNodes rest := by
  simp [fmNodes]

theorem fmNodes_fmapAdd {fm : FieldMap} {key : String} {g f : FieldInfo} :
    f ∈ fmNodes (fmapAdd fm key g) → f ∈ fmNodes fm ∨ f = g := by
  induction fm with
  | nil =>
    intro h
    simp [fmapAdd, fmNodes] at h
    exact Or.inr h
  | cons entry rest ih =>
    obtain ⟨k, fs⟩ := entry
    intro h
    by_cases hk : k = key
    · subst hk
      rw [fmapAdd, if_pos rfl, fmNodes_cons] at h
      rw [fmNodes_cons]
      rcases List.mem_append.mp h with h | h
      · rcases List.mem_append.mp h with h | h
        · exact Or.inl (List.mem_append.mpr (Or.inl h))
        · exact Or.inr (List.mem_singleton.mp h)
      · exact Or.inl (List.mem_append.mpr (Or.inr h))
    · rw [fmapAdd, if_neg hk, fmNodes_cons] at h
      rw [fmNodes_cons]
      rcases List.mem_append.mp h with h | h
      · exact Or.inl (List.mem_append.mpr (Or.inl h))
      · rcases ih h with h' | h'
        · exact Or.inl (List.mem_append.mpr (Or.inr h'))
        · exact Or.inr h'

theorem collectGo_provenance (schema : SchemaM) (frags : Fragments)
    (vars : Vars) (rt : Option String) (d : Nat) :
    ∀ fuel sels fm visited fm' vis',
      selListSpreadFree sels = true → selListFieldDepth sels ≤ d →
      (∀ f ∈ fmNodes fm, okFieldInfo d f) →
      collectGo schema frags vars rt fuel sels fm visited = .ok (fm', vis') →
      ∀ f ∈ fmNodes fm', okFieldInfo d f := by
  intro fuel
  induction fuel with
  | zero =>
    intro sels fm visited fm' vis' _ _ _ h
    simp [collectGo] at h
  | succ fuel ih =>
    intro sels fm visited fm' vis' hsf hdep hacc h
    cases sels with
    | nil =>
      simp [collectGo] at h
      obtain ⟨h1, _⟩ := h
      subst h1
      exact hacc
    | cons sel rest =>
      cases sel with
      | field al name dirs sub =>
        have hsf' : selListSpreadFree rest = true := by
          cases sub <;> simp_all [selListSpreadFree, selSpreadFree, Bool.and_eq_true]
        have hdep' : selListFieldDepth rest ≤ d := by
          simp [selListFieldDepth] at hdep
          omega
        simp only [collectGo, Bind.bind, Except.bind] at h
        cases hs : shouldIncludeNode vars dirs with
        | error e => rw [hs] at h; cases h
        | ok inc =>
          rw [hs] at h
          cases inc with
          | false =>
            simp only [Bool.false_eq_true, if_false] at h
            exact ih rest fm visited fm' vis' hsf' hdep' hacc h
          | true =>
            simp only [if_true] at h
            refine ih rest _ visited fm' vis' hsf' hdep' ?_ h
            intro f hf
            rcases fmNodes_fmapAdd hf with hf' | hf'
            · exact hacc f hf'
            · subst hf'
              intro sub' hsub'
              simp at hsub'
              subst hsub'
              constructor
              · simp [selListSpreadFree, selSpreadFree, Bool.and_eq_true] at hsf
                exact hsf.1
              · simp [selListFieldDepth, selFieldDepth] at hdep
                omega
      | inlineFragment tc dirs body =>
        have hparts : selListSpreadFree body = true ∧ selListSpreadFree rest = true := by
          simp_all [selListSpreadFree, selSpreadFree, Bool.and_eq_true]
        have hdeps : selListFieldDepth body ≤ d ∧ selListFieldDepth rest ≤ d := by
          simp [selListFieldDepth, selFieldDepth] at hdep
          omega
        simp only [collectGo, Bind.bind, Except.bind] at h
        cases hs : shouldIncludeNode vars dirs with
        | error e => rw [hs] at h; cases h
        | ok inc =>
          rw [hs] at h
          by_cases hc : (inc && doesFragmentConditionMatch schema tc rt) = true
          · simp only [hc, if_true] at h
            cases hb : collectGo schema frags vars rt fuel body fm visited with
            | error e => rw [hb] at h; cases h
            | ok p =>
              rw [hb] at h
              have hmid := ih body fm visited p.1 p.2 hparts.1 hdeps.1 hacc
                (by rw [hb])
              exact ih rest p.1 p.2 fm' vis' hparts.2 hdeps.2 hmid h
          · simp only [hc, Bool.false_eq_true, if_false] at h
            exact ih rest fm visited fm' vis' hparts.2 hdeps.2 hacc h
      | fragmentSpread fname dirs =>
        simp [selListSpreadFree, selSpreadFree] at hsf

theorem pickItemsGo_no_fuelOut {pff : String → GVal → Except PickErr OutVal}
    {base : String} (hpf : ∀ p v, pff p v ≠ .error .fuelOut) :
    ∀ items i, pickItemsGo pff base items i ≠ .error .fuelOut := by
  intro items
  induction items with
  | nil => intro i; simp [pickItemsGo]
  | cons item rest ih =>
    intro i
    simp only [pickItemsGo, Bind.bind, Except.bind]
    cases hv : pff (base ++ "[" ++ toString i ++ "]") item with
    | error e =>
      intro hcontra
      cases hcontra
      exact hpf _ _ hv
    | ok v =>
      cases hrest : pickItemsGo pff base rest (i + 1) with
      | error e =>
        intro hcontra
        cases hcontra
        exact ih (i + 1) hrest
      | ok vs => simp [Pure.pure, Except.pure]

theorem pickNodesGo_no_fuelOut {store : Store} {path : String} {data : GVal}
    {pf : String → FieldInfo → GVal → Except PickErr OutVal} :
    ∀ nodes acc, (∀ fp f v, f ∈ nodes → pf fp f v ≠ .error .fuelOut) →
      pickNodesGo store path data pf nodes acc ≠ .error .fuelOut := by
  intro nodes
  induction nodes with
  | nil => intro acc _; simp [pickNodesGo]
  | cons fnode rest ih =>
    intro acc hpf
    simp only [pickNodesGo, Bind.bind, Except.bind]
    have hpfhead : ∀ fp v, pf fp fnode v ≠ .error .fuelOut := fun fp v =>
      hpf fp fnode v (List.mem_cons_self _ _)
    have hpfrest : ∀ fp f v, f ∈ rest → pf fp f v ≠ .error .fuelOut :=
      fun fp f v hf => hpf fp f v (List.mem_cons_of_mem _ hf)
    cases hfd : getPropVal store data fnode.name with
    | arr items =>
      cases hitems : pickItemsGo (fun p v => pf p fnode v)
          (path ++ "." ++ fnode.name) items 0 with
      | error e =>
        intro hcontra
        simp only [hitems] at hcontra
        cases hcontra
        exact pickItemsGo_no_fuelOut (fun p v => hpfhead p v) items 0 hitems
      | ok outs =>
        simp only [hitems]
        exact ih _ hpfrest
    | obj r =>
      cases hv : pf (path ++ "." ++ fnode.name) fnode (GVal.obj r) with
      | error e =>
        intro hcontra
        simp only [hv] at hcontra
        cases hcontra
        exact hpfhead _ _ hv
      | ok v =>
        simp only [hv]
        exact ih _ hpfrest
    | null =>
      cases hv : pf (path ++ "." ++ fnode.name) fnode GVal.null with
      | error e =>
        intro hcontra
        simp only [hv] at hcontra
        cases hcontra
        exact hpfhead _ _ hv
      | ok v =>
        simp only [hv]
        exact ih _ hpfrest
    | undef =>
      cases hv : pf (path ++ "." ++ fnode.name) fnode GVal.undef with
      | error e =>
        intro hcontra
        simp only [hv] at hcontra
        cases hcontra
        exact hpfhead _ _ hv
      | ok v =>
        simp only [hv]
        exact ih _ hpfrest
    | str s =>
      cases hv : pf (path ++ "." ++ fnode.name) fnode (GVal.str s) with
      | error e =>
        intro hcontra
        simp only [hv] at hcontra
        cases hcontra
        exact hpfhead _ _ hv
      | ok v =>
        simp only [hv]
        exact ih _ hpfrest
    | num n =>
      cases hv : pf (path ++ "." ++ fnode.name) fnode (GVal.num n) with
      | error e =>
        intro hcontra
        simp only [hv] at hcontra
        cases hcontra
        exact hpfhead _ _ hv
      | ok v =>
        simp only [hv]
        exact ih _ hpfrest
    | bool b =>
      cases hv : pf (path ++ "." ++ fnode.name) fnode (GVal.bool b) with
      | error e =>
        intro hcontra
        simp only [hv] at hcontra
        cases hcontra
        exact hpfhead _ _ hv
      | ok v =>
        simp only [hv]
        exact ih _ hpfrest

theorem except_map_fuelOut {α β : Type} {g : α → β} {x : Except PickErr α} :
    x.map g = .error .fuelOut → x = .error .fuelOut := by
  cases x <;> simp [Except.map]

theorem pickSelectionSetF_spreadFree_no_fuelOut (store : Store) (schema : SchemaM)
    (frags : Fragments) (vars : Vars) :
    ∀ fuel path data ss rt, selListSpreadFree ss = true →
      selListFieldDepth ss < fuel →
      pickSelectionSetF fuel store schema frags vars path data ss rt ≠
        .error .fuelOut := by
  intro fuel
  induction fuel with
  | zero => intro path data ss rt _ hdep; omega
  | succ fuel ih =>
    intro path data ss rt hsf hdep
    simp only [pickSelectionSetF, Bind.bind, Except.bind]
    cases hc : collectFields schema frags vars rt ss with
    | error e =>
      intro hcontra
      cases hcontra
      have : collectGo schema frags vars rt (collectFuelBound frags ss) ss [] [] =
          .error .fuelOut := by
        unfold collectFields at hc
        cases hg : collectGo schema frags vars rt (collectFuelBound frags ss) ss [] [] with
        | error e' => rw [hg] at hc; simp [Except.map] at hc; rw [hc]
        | ok p => rw [hg] at hc; simp [Except.map] at hc
      exact collectGo_spreadFree_no_fuelOut schema frags vars rt _ ss [] [] hsf
        (by unfold collectFuelBound; omega) this
    | ok fieldMap =>
      refine pickNodesGo_no_fuelOut (fmNodes fieldMap) [] ?_
      intro fp f v hf
      have hok : okFieldInfo fuel f := by
        have hcg : ∃ p, collectGo schema frags vars rt (collectFuelBound frags ss)
            ss [] [] = .ok p ∧ p.1 = fieldMap := by
          unfold collectFields at hc
          cases hg : collectGo schema frags vars rt (collectFuelBound frags ss) ss [] [] with
          | error e' => rw [hg] at hc; simp [Except.map] at hc
          | ok p => rw [hg] at hc; simp [Except.map] at hc; exact ⟨p, rfl, hc⟩
        obtain ⟨p, hp, hp1⟩ := hcg
        have := collectGo_provenance schema frags vars rt fuel _ ss [] [] p.1 p.2
          hsf (by omega) (by intro f' hf'; simp [fmNodes] at hf') (by rw [hp])
        rw [hp1] at this
        exact this f hf
      unfold pickFieldCore
      cases hsub : f.sub with
      | none => simp
      | some sub =>
        simp only
        by_cases hobj : isObjectLike v = true
        · simp only [hobj, if_true]
          by_cases hinfer :
              (!schema.isDummy && (resolveRuntimeType store schema v).isNone) = true
          · simp [hinfer]
          · simp only [hinfer, Bool.false_eq_true, if_false]
            obtain ⟨hsf', hdep'⟩ := hok sub hsub
            intro hcontra
            exact ih fp v sub (resolveRuntimeType store schema v) hsf'
              (by omega) (except_map_fuelOut hcontra)
        · simp [hobj]

/-- C2.  First conjunct: for every payload store (cyclic graphs included),
variables, schema and runtime type, projecting through a spread-free
selection set terminates whenever the fuel exceeds the static field depth of
the selection set — the payload-graph recursion is bounded by the document,
never by the data, so no fuel-exhaustion (the embedding's image of
divergence) can occur.  Second conjunct: projecting the cyclic jack/jill
payload through `query { user { name siblings { name } eldestSibling { age
} } }` yields exactly `{user: {name, siblings: [{name}], eldestSibling:
{age}}}`. -/
theorem claim2_projection_terminates_on_cycles :
    (∀ (store : Store) (schema : SchemaM) (frags : Fragments) (vars : Vars)
       (fuel : Nat) (path : String) (data : GVal) (ss : List Selection)
       (rt : Option String),
       selListSpreadFree ss = true → selListFieldDepth ss < fuel →
       pickSelectionSetF fuel store schema frags vars path data ss rt ≠
         .error .fuelOut)
    ∧ pickOperationFields fxCyclicStore (.obj 2) fxC2Doc none [] dummySchema =
        .ok [("user", .objOut
          [("name", .raw (.str "Jack")),
           ("siblings", .arrOut [.objOut [("name", .raw (.str "Jill"))]]),
           ("eldestSibling", .objOut [("age", .raw (.num 10))])])] :=
  ⟨fun store schema frags vars fuel path data ss rt hsf hdep =>
    pickSelectionSetF_spreadFree_no_fuelOut store schema frags vars fuel path
      data ss rt hsf hdep,
   rfl⟩

/-- Witness for C2: the universal conjunct applied to the cyclic store and
the scenario's selection set, with the hypotheses discharged by
computation. -/
theorem claim2_witness :
    pickSelectionSetF 4 fxCyclicStore dummySchema [] [] "data" (.obj 2)
        [plainField "user" (some
          [plainField "name" none,
           plainField "siblings" (some [plainField "name" none]),
           plainField "eldestSibling" (some [plainField "age" none])])] none ≠
      .error .fuelOut :=
  claim2_projection_terminates_on_cycles.1 fxCyclicStore dummySchema [] [] 4
    "data" (.obj 2) _ none (by decide) (by decide)

theorem collectGo_no_inferError (schema : SchemaM) (frags : Fragments)
    (vars : Vars) (rt : Option String) :
    ∀ fuel sels fm visited p,
      collectGo schema frags vars rt fuel sels fm visited ≠
        .error (.inferError p) := by
  intro fuel
  induction fuel with
  | zero =>
    intro sels fm visited p h
    simp [collectGo] at h
  | succ fuel ih =>
    intro sels fm visited p h
    cases sels with
    | nil => simp [collectGo] at h
    | cons sel rest =>
      cases sel with
      | field al name dirs sub =>
        simp only [collectGo, Bind.bind, Except.bind] at h
        cases hs : shouldIncludeNode vars dirs with
        | error e =>
          rw [hs] at h
          cases h
          rcases shouldIncludeNode_error_shape hs with h' | h' <;> cases h'
        | ok inc =>
          rw [hs] at h
          cases inc with
          | true => exact ih rest _ visited p (by simpa using h)
          | false => exact ih rest fm visited p (by simpa using h)
      | inlineFragment tc dirs body =>
        simp only [collectGo, Bind.bind, Except.bind] at h
        cases hs : shouldIncludeNode vars dirs with
        | error e =>
          rw [hs] at h
          cases h
          rcases shouldIncludeNode_error_shape hs with h' | h' <;> cases h'
        | ok inc =>
          rw [hs] at h
          by_cases hc : (inc && doesFragmentConditionMatch schema tc rt) = true
          · simp only [hc, if_true] at h
            cases hb : collectGo schema frags vars rt fuel body fm visited with
            | error e =>
              rw [hb] at h
              cases h
              exact ih body fm visited p hb
            | ok q =>
              rw [hb] at h
              exact ih rest q.1 q.2 p h
          · simp only [hc, Bool.false_eq_true, if_false] at h
            exact ih rest fm visited p h
      | fragmentSpread fname dirs =>
        simp only [collectGo] at h
        by_cases hvis : visited.contains fname = true
        · rw [if_pos hvis] at h
          exact ih rest fm visited p h
        · rw [if_neg hvis] at h
          simp only [Bind.bind, Except.bind] at h
          cases hs : shouldIncludeNode vars dirs with
          | error e =>
            rw [hs] at h
            cases h
            rcases shouldIncludeNode_error_shape hs with h' | h' <;> cases h'
          | ok inc =>
            rw [hs] at h
            cases inc with
            | false => exact ih rest fm visited p (by simpa using h)
            | true =>
              simp only [Bool.not_true, Bool.false_eq_true, if_false] at h
              cases hf : recordGet frags fname with
              | none =>
                rw [hf] at h
                dsimp only at h
                exact ih rest fm _ p h
              | some frag =>
                rw [hf] at h
                dsimp only at h
                by_cases hc : doesFragmentConditionMatch schema
                    (some frag.typeCondition) rt = true
                · rw [if_pos hc] at h
                  cases hb : collectGo schema frags vars rt fuel
                      frag.selectionSet fm (fname :: visited) with
                  | error e =>
                    rw [hb] at h
                    cases h
                    exact ih frag.selectionSet fm (fname :: visited) p hb
                  | ok q =>
                    rw [hb] at h
                    exact ih rest q.1 q.2 p h
                · rw [if_neg hc] at h
                  exact ih rest fm _ p h

theorem collectFields_no_inferError (schema : SchemaM) (frags : Fragments)
    (vars : Vars) (rt : Option String) (sels : List Selection) (p : String) :
    collectFields schema frags vars rt sels ≠ .error (.inferError p) := by
  unfold collectFields
  cases hg : collectGo schema frags vars rt (collectFuelBound frags sels)
      sels [] [] with
  | error e =>
    simp only [hg, Except.map]
    intro h
    cases h
    exact collectGo_no_inferError schema frags vars rt _ sels [] [] p hg
  | ok q => simp [hg, Except.map]

theorem pickItemsGo_error_imp {pff : String → GVal → Except PickErr OutVal}
    {base : String} (P : PickErr → Prop)
    (hpff : ∀ fp v e, base.length ≤ fp.length → pff fp v = .error e → P e) :
    ∀ items i e, pickItemsGo pff base items i = .error e → P e := by
  intro items
  induction items with
  | nil => intro i e h; simp [pickItemsGo] at h
  | cons item rest ih =>
    intro i e h
    simp only [pickItemsGo, Bind.bind, Except.bind] at h
    cases hv : pff (base ++ "[" ++ toString i ++ "]") item with
    | error e' =>
      rw [hv] at h
      cases h
      refine hpff _ _ _ ?_ hv
      simp only [String.length_append]
      omega
    | ok v =>
      rw [hv] at h
      cases hrest : pickItemsGo pff base rest (i + 1) with
      | error e' =>
        rw [hrest] at h
        cases h
        exact ih (i + 1) _ hrest
      | ok vs =>
        rw [hrest] at h
        simp [Pure.pure, Except.pure] at h

theorem except_bind_error {α β : Type} {x : Except PickErr α}
    {k : α → Except PickErr β} {e : PickErr}
    (h : Except.bind x k = .error e) :
    x = .error e ∨ ∃ v, x = .ok v ∧ k v = .error e := by
  cases x with
  | error e' =>
    simp [Except.bind] at h
    exact Or.inl (by rw [h])
  | ok v =>
    simp [Except.bind] at h
    exact Or.inr ⟨v, rfl, h⟩

theorem pickNodesGo_error_imp {store : Store} {path : String} {data : GVal}
    {pf : String → FieldInfo → GVal → Except PickErr OutVal}
    (P : PickErr → Prop) :
    ∀ nodes acc,
      (∀ fp f v e, f ∈ nodes → (path ++ "." ++ f.name).length ≤ fp.length →
        pf fp f v = .error e → P e) →
      ∀ e, pickNodesGo store path data pf nodes acc = .error e → P e := by
  intro nodes
  induction nodes with
  | nil => intro acc _ e h; simp [pickNodesGo] at h
  | cons fnode rest ih =>
    intro acc hpf e h
    simp only [pickNodesGo, Bind.bind] at h
    have hhead : ∀ fp v e', (path ++ "." ++ fnode.name).length ≤ fp.length →
        pf fp fnode v = .error e' → P e' :=
      fun fp v e' hlen hv => hpf fp fnode v e' (List.mem_cons_self _ _) hlen hv
    have hrest : ∀ fp f v e', f ∈ rest →
        (path ++ "." ++ f.name).length ≤ fp.length → pf fp f v = .error e' → P e' :=
      fun fp f v e' hf hlen hv => hpf fp f v e' (List.mem_cons_of_mem _ hf) hlen hv
    cases hfd : getPropVal store data fnode.name
    case arr items =>
      rw [hfd] at h
      rcases except_bind_error h with hI | ⟨outs, hI, h2⟩
      · exact pickItemsGo_error_imp P
          (fun fp v e' hlen hv => hhead fp v e' hlen hv) _ 0 _ hI
      · simp only [Pure.pure, Except.pure, Except.bind] at h2
        exact ih _ hrest e h2
    all_goals
      rw [hfd] at h
      rcases except_bind_error h with hv | ⟨v, hv, h2⟩
      · exact hhead _ _ _ (Nat.le_refl _) hv
      · exact ih _ hrest e h2

theorem string_length_le_append (a b : String) : a.length ≤ (a ++ b).length := by
  simp only [String.length_append]
  omega

theorem pickSelectionSetF_inferError_longer (store : Store) (schema : SchemaM)
    (frags : Fragments) (vars : Vars) :
    ∀ fuel path data ss rt p',
      pickSelectionSetF fuel store schema frags vars path data ss rt =
        .error (.inferError p') →
      path.length < p'.length := by
  intro fuel
  induction fuel with
  | zero =>
    intro path data ss rt p' h
    simp [pickSelectionSetF] at h
  | succ fuel ih =>
    intro path data ss rt p' h
    simp only [pickSelectionSetF, Bind.bind] at h
    rcases except_bind_error h with hc | ⟨fieldMap, hc, h⟩
    · exact absurd hc (collectFields_no_inferError schema frags vars rt ss p')
    · refine pickNodesGo_error_imp
        (fun e => ∀ q, e = .inferError q → path.length < q.length) _ [] ?_ _ h p' rfl
      intro fp f v e hf hlen hv q heq
      subst heq
      have hdot : (".").length = 1 := rfl
      have hstep : path.length < (path ++ "." ++ f.name).length := by
        simp only [String.length_append]
        omega
      unfold pickFieldCore at hv
      cases hsub : f.sub with
      | none =>
        rw [hsub] at hv
        cases hv
      | some sub =>
        rw [hsub] at hv
        dsimp only at hv
        by_cases hobj : isObjectLike v = true
        · rw [if_pos hobj] at hv
          by_cases hinf :
              (!schema.isDummy && (resolveRuntimeType store schema v).isNone) = true
          · rw [if_pos hinf] at hv
            cases hv
            omega
          · rw [if_neg hinf] at hv
            have hrec : pickSelectionSetF fuel store schema frags vars fp v sub
                (resolveRuntimeType store schema v) = .error (.inferError q) := by
              cases hx : pickSelectionSetF fuel store schema frags vars fp v sub
                  (resolveRuntimeType store schema v) with
              | error e' =>
                rw [hx] at hv
                simp [Except.map] at hv
                rw [hv]
              | ok o =>
                rw [hx] at hv
                simp [Except.map] at hv
            have := ih fp v sub (resolveRuntimeType store schema v) q hrec
            omega
        · rw [if_neg hobj] at hv
          cases hv

theorem pickSelectionSetF_dummy_no_inferError (store : Store) (schema : SchemaM)
    (frags : Fragments) (vars : Vars) (hdummy : schema.isDummy = true) :
    ∀ fuel path data ss rt p',
      pickSelectionSetF fuel store schema frags vars path data ss rt ≠
        .error (.inferError p') := by
  intro fuel
  induction fuel with
  | zero =>
    intro path data ss rt p' h
    simp [pickSelectionSetF] at h
  | succ fuel ih =>
    intro path data ss rt p' h
    simp only [pickSelectionSetF, Bind.bind] at h
    rcases except_bind_error h with hc | ⟨fieldMap, hc, h⟩
    · exact absurd hc (collectFields_no_inferError schema frags vars rt ss p')
    · refine pickNodesGo_error_imp
        (fun e => ∀ q, e = .inferError q → False) _ [] ?_ _ h p' rfl
      intro fp f v e hf hlen hv q heq
      subst heq
      unfold pickFieldCore at hv
      cases hsub : f.sub with
      | none =>
        rw [hsub] at hv
        cases hv
      | some sub =>
        rw [hsub] at hv
        dsimp only at hv
        by_cases hobj : isObjectLike v = true
        · rw [if_pos hobj] at hv
          have hinf : (!schema.isDummy &&
              (resolveRuntimeType store schema v).isNone) = false := by
            simp [hdummy]
          rw [hinf] at hv
          simp only [Bool.false_eq_true, if_false] at hv
          have hrec : pickSelectionSetF fuel store schema frags vars fp v sub
              (resolveRuntimeType store schema v) = .error (.inferError q) := by
            cases hx : pickSelectionSetF fuel store schema frags vars fp v sub
                (resolveRuntimeType store schema v) with
            | error e' =>
              rw [hx] at hv
              simp [Except.map] at hv
              rw [hv]
            | ok o =>
              rw [hx] at hv
              simp [Except.map] at hv
          exact ih fp v sub (resolveRuntimeType store schema v) q hrec
        · rw [if_neg hobj] at hv
          cases hv

/-- C3.  Schema-aware type-inference errors, in five parts.  (1) `pickField`
returns `null`/`undefined` values unchanged — null or absent values never
trigger the error.  (2) With a real (non-dummy) schema, a field carrying a
selection set over an object value whose `__typename` is missing, non-string
or unresolvable throws exactly
`Unable to infer object type. Ensure "<path>" includes __typename.` with the
field's access path.  (3) When the `__typename` resolves, `pickField` never
throws that error for its own path (nested occurrences carry strictly longer
paths).  (4) Schema-less mode (`dummySchema`) never produces the inference
error anywhere in a projection.  (5) The access path is the exact
dotted/indexed path from the response root: the repository's test payload
whose second `employees` element omits `__typename` fails at
`data.business.employees[1]`, with the message rendered exactly. -/
theorem claim3_type_inference_error_characterization :
    (∀ fuel store schema frags vars fieldPath fnode,
       pickFieldF fuel store schema frags vars fieldPath fnode .null =
         .ok (.raw .null)
       ∧ pickFieldF fuel store schema frags vars fieldPath fnode .undef =
         .ok (.raw .undef))
    ∧ (∀ fuel store schema frags vars fieldPath fnode sub v,
        fnode.sub = some sub → isObjectLike v = true → schema.isDummy = false →
        resolveRuntimeType store schema v = none →
        pickFieldF fuel store schema frags vars fieldPath fnode v =
          .error (.inferError fieldPath)
        ∧ (PickErr.inferError fieldPath).message =
            "Unable to infer object type. Ensure \"" ++ fieldPath ++
              "\" includes __typename.")
    ∧ (∀ fuel store schema frags vars fieldPath fnode sub v t,
        fnode.sub = some sub → isObjectLike v = true →
        resolveRuntimeType store schema v = some t →
        pickFieldF fuel store schema frags vars fieldPath fnode v ≠
          .error (.inferError fieldPath))
    ∧ (∀ fuel store data doc operationName vars p,
        pickOperationFieldsF fuel store data doc operationName vars dummySchema ≠
          .error (.inferError p))
    ∧ pickOperationFields fxC3Store (.obj 0) fxC3Doc none [] fxRealSchema =
        .error (.inferError "data.business.employees[1]") := by
  refine ⟨?_, ?_, ?_, ?_, rfl⟩
  · intro fuel store schema frags vars fieldPath fnode
    constructor <;>
      (cases hs : fnode.sub <;> simp [pickFieldF, pickFieldCore, hs, isObjectLike])
  · intro fuel store schema frags vars fieldPath fnode sub v hsub hobj hds hres
    refine ⟨?_, rfl⟩
    unfold pickFieldF pickFieldCore
    rw [hsub]
    dsimp only
    rw [if_pos hobj, hres, hds]
    simp
  · intro fuel store schema frags vars fieldPath fnode sub v t hsub hobj hres h
    unfold pickFieldF pickFieldCore at h
    rw [hsub] at h
    dsimp only at h
    rw [if_pos hobj, hres] at h
    simp only [Option.isNone_some, Bool.and_false, Bool.false_eq_true, if_false] at h
    have hrec : pickSelectionSetF fuel store schema frags vars fieldPath v sub
        (some t) = .error (.inferError fieldPath) := by
      cases hx : pickSelectionSetF fuel store schema frags vars fieldPath v sub
          (some t) with
      | error e' =>
        rw [hx] at h
        simp [Except.map] at h
        rw [h]
      | ok o =>
        rw [hx] at h
        simp [Except.map] at h
    have := pickSelectionSetF_inferError_longer store schema frags vars fuel
      fieldPath v sub (some t) fieldPath hrec
    omega
  · intro fuel store data doc operationName vars p h
    unfold pickOperationFieldsF at h
    revert h
    cases hop : recordGet (extractDefinitions doc).2 (opDefKey operationName) with
    | none =>
      simp only [extractDefinitions] at hop ⊢
      rw [hop]
      intro h
      cases h
    | some op =>
      simp only [extractDefinitions] at hop ⊢
      rw [hop]
      exact pickSelectionSetF_dummy_no_inferError store dummySchema _ vars rfl
        fuel "data" data op.selectionSet (getRootType dummySchema op.operation) p

/-- Witness for C3 at concrete inputs: null and undefined pass through; the
typename-less `jill` node under the real schema throws with its exact path;
the typename-carrying `jack` node does not throw the error for its path; a
schema-less projection never throws it. -/
theorem claim3_witness :
    pickFieldF 2 fxC3Store fxRealSchema [] [] "data.user"
        ⟨none, "user", [], some [plainField "id" none]⟩ .null = .ok (.raw .null)
    ∧ pickFieldF 2 fxC3Store fxRealSchema [] [] "data.user"
        ⟨none, "user", [], some [plainField "id" none]⟩ (.obj 3) =
      .error (.inferError "data.user")
    ∧ pickFieldF 2 fxC3Store fxRealSchema [] [] "data.user"
        ⟨none, "user", [], some [plainField "id" none]⟩ (.obj 2) ≠
      .error (.inferError "data.user")
    ∧ pickOperationFieldsF 3 fxC1Store (.obj 0) fxC1Doc none [] dummySchema ≠
      .error (.inferError "data.user") :=
  ⟨(claim3_type_inference_error_characterization.1 2 fxC3Store fxRealSchema [] []
      "data.user" ⟨none, "user", [], some [plainField "id" none]⟩).1,
   (claim3_type_inference_error_characterization.2.1 2 fxC3Store fxRealSchema [] []
      "data.user" ⟨none, "user", [], some [plainField "id" none]⟩
      [plainField "id" none] (.obj 3) rfl rfl rfl rfl).1,
   claim3_type_inference_error_characterization.2.2.1 2 fxC3Store fxRealSchema [] []
      "data.user" ⟨none, "user", [], some [plainField "id" none]⟩
      [plainField "id" none] (.obj 2) "Account" rfl rfl rfl,
   claim3_type_inference_error_characterization.2.2.2.1 3 fxC1Store (.obj 0)
      fxC1Doc none [] "data.user"⟩

theorem framePreserved_refl (st : Store) : framePreserved st st :=
  ⟨Nat.le_refl _, fun _ _ => rfl⟩

theorem framePreserved_trans {a b c : Store} (h1 : framePreserved a b)
    (h2 : framePreserved b c) : framePreserved a c :=
  ⟨Nat.le_trans h1.1 h2.1,
   fun i hi => (h2.2 i (Nat.lt_of_lt_of_le hi h1.1)).trans (h1.2 i hi)⟩

theorem framePreserved_weaken {pd : Nat} {a b : Store}
    (h : framePreserved a b) : framePreservedExcept pd a b :=
  ⟨h.1, fun i hi _ => h.2 i hi⟩

theorem framePreservedExcept_trans {pd : Nat} {a b c : Store}
    (h1 : framePreservedExcept pd a b) (h2 : framePreservedExcept pd b c) :
    framePreservedExcept pd a c :=
  ⟨Nat.le_trans h1.1 h2.1,
   fun i hi hne => (h2.2 i (Nat.lt_of_lt_of_le hi h1.1) hne).trans (h1.2 i hi hne)⟩

theorem setNodeProp_frame (st : Store) (pd : Nat) (k : String) (v : GVal) :
    framePreservedExcept pd st (setNodeProp st pd k v) := by
  refine ⟨?_, ?_⟩
  · unfold setNodeProp
    rw [List.length_set]
  · intro i hi hne
    unfold setNodeProp
    exact List.getElem?_set_ne (fun h => hne h.symm)

theorem pickItemsGoH_frame
    {pfH : Store → String → GVal → Store × Except PickErr GVal}
    (hpf : ∀ s p v, framePreserved s (pfH s p v).1) (base : String) :
    ∀ items st i, framePreserved st (pickItemsGoH pfH base st items i).1 := by
  intro items
  induction items with
  | nil => intro st i; exact framePreserved_refl st
  | cons item rest ih =>
    intro st i
    simp only [pickItemsGoH]
    have h1 := hpf st (base ++ "[" ++ toString i ++ "]") item
    rcases hpv : pfH st (base ++ "[" ++ toString i ++ "]") item with ⟨st', r⟩
    rw [hpv] at h1
    cases r with
    | error e => exact h1
    | ok v =>
      dsimp only
      have h2 := ih st' (i + 1)
      rcases hrest : pickItemsGoH pfH base st' rest (i + 1) with ⟨st'', r2⟩
      rw [hrest] at h2
      cases r2 <;> exact framePreserved_trans h1 h2

theorem pickNodesGoH_frame {path : String} {data : GVal}
    {pfH : Store → String → FieldInfo → GVal → Store × Except PickErr GVal}
    (hpf : ∀ s p f v, framePreserved s (pfH s p f v).1) :
    ∀ nodes st pd,
      framePreservedExcept pd st (pickNodesGoH path data pfH st pd nodes).1 := by
  intro nodes
  induction nodes with
  | nil => intro st pd; exact framePreserved_weaken (framePreserved_refl st)
  | cons fnode rest ih =>
    intro st pd
    simp only [pickNodesGoH]
    have hstep : ∀ (fd : GVal),
        framePreservedExcept pd st
          ((match pfH st (path ++ "." ++ fnode.name) fnode fd with
            | (st', Except.ok v) =>
              pickNodesGoH path data pfH (setNodeProp st' pd fnode.name v) pd rest
            | (st', Except.error e) => (st', Except.error e)).1) := by
      intro fd
      have h1 := hpf st (path ++ "." ++ fnode.name) fnode fd
      rcases hpv : pfH st (path ++ "." ++ fnode.name) fnode fd with ⟨st', r⟩
      rw [hpv] at h1
      cases r with
      | error e => exact framePreserved_weaken h1
      | ok v =>
        dsimp only
        exact framePreservedExcept_trans (framePreserved_weaken h1)
          (framePreservedExcept_trans (setNodeProp_frame st' pd fnode.name v)
            (ih (setNodeProp st' pd fnode.name v) pd))
    cases hfd : getPropVal st data fnode.name
    case arr items =>
      show framePreservedExcept pd st
        ((match pickItemsGoH (fun s p v => pfH s p fnode v)
            (path ++ "." ++ fnode.name) st items 0 with
          | (st', Except.ok outs) =>
            pickNodesGoH path data pfH
              (setNodeProp st' pd fnode.name (GVal.arr outs)) pd rest
          | (st', Except.error e) => (st', Except.error e)).1)
      have h1 := pickItemsGoH_frame (fun s p v => hpf s p fnode v)
        (path ++ "." ++ fnode.name) items st 0
      rcases hitems : pickItemsGoH (fun s p v => pfH s p fnode v)
          (path ++ "." ++ fnode.name) st items 0 with ⟨st', r⟩
      rw [hitems] at h1
      cases r with
      | error e => exact framePreserved_weaken h1
      | ok outs =>
        dsimp only
        exact framePreservedExcept_trans (framePreserved_weaken h1)
          (framePreservedExcept_trans
            (setNodeProp_frame st' pd fnode.name (GVal.arr outs))
            (ih (setNodeProp st' pd fnode.name (GVal.arr outs)) pd))
    case null => exact hstep .null
    case undef => exact hstep .undef
    case str s => exact hstep (.str s)
    case num n => exact hstep (.num n)
    case bool b => exact hstep (.bool b)
    case obj ref => exact hstep (.obj ref)

theorem pickSelectionSetH_frame (schema : SchemaM) (frags : Fragments)
    (vars : Vars) :
    ∀ fuel st path data ss rt,
      framePreserved st
        (pickSelectionSetH fuel st schema frags vars path data ss rt).1 := by
  intro fuel
  induction fuel with
  | zero => intro st path data ss rt; exact framePreserved_refl st
  | succ fuel ih =>
    intro st path data ss rt
    simp only [pickSelectionSetH]
    cases hc : collectFields schema frags vars rt ss with
    | error e => exact framePreserved_refl st
    | ok fieldMap =>
      dsimp only
      have hpf : ∀ s p f v, framePreserved s
          (pickFieldCoreH schema
            (fun s' p d ss' rt' =>
              pickSelectionSetH fuel s' schema frags vars p d ss' rt')
            s p f v).1 := by
        intro s p f v
        unfold pickFieldCoreH
        cases hs : f.sub with
        | none => exact framePreserved_refl s
        | some sub =>
          dsimp only
          by_cases hobj : isObjectLike v = true
          · rw [if_pos hobj]
            by_cases hinf :
                (!schema.isDummy && (resolveRuntimeType s schema v).isNone) = true
            · rw [if_pos hinf]
              exact framePreserved_refl s
            · rw [if_neg hinf]
              exact ih s p v sub (resolveRuntimeType s schema v)
          · rw [if_neg hobj]
            exact framePreserved_refl s
      have happend : framePreserved st (st ++ [[]]) := by
        refine ⟨by simp, ?_⟩
        intro i hi
        exact List.getElem?_append_left hi
      have hnodes := @pickNodesGoH_frame path data _ hpf
        ((fieldMap.map Prod.snd).flatten) (st ++ [[]]) st.length
      rcases hrun : pickNodesGoH path data
          (fun s fp fnode fd =>
            pickFieldCoreH schema
              (fun s' p d ss' rt' =>
                pickSelectionSetH fuel s' schema frags vars p d ss' rt')
              s fp fnode fd)
          (st ++ [[]]) st.length ((fieldMap.map Prod.snd).flatten) with ⟨st', r⟩
      rw [hrun] at hnodes
      have hfinal : framePreserved st st' := by
        refine ⟨Nat.le_trans happend.1 hnodes.1, ?_⟩
        intro i hi
        have hi1 : i < (st ++ [[]]).length := Nat.lt_of_lt_of_le hi happend.1
        have hne : i ≠ st.length := Nat.ne_of_lt hi
        exact (hnodes.2 i hi1 hne).trans (happend.2 i hi)
      cases r with
      | error e => exact hfinal
      | ok v => exact hfinal

theorem pickOperationFieldsH_frame :
    ∀ fuel store data doc operationName vars schema,
      framePreserved store
        (pickOperationFieldsH fuel store data doc operationName vars schema).1 := by
  intro fuel store data doc operationName vars schema
  unfold pickOperationFieldsH
  cases hop : recordGet (extractDefinitions doc).2 (opDefKey operationName) with
  | none =>
    simp only [extractDefinitions] at hop ⊢
    rw [hop]
    exact framePreserved_refl store
  | some op =>
    simp only [extractDefinitions] at hop ⊢
    rw [hop]
    exact pickSelectionSetH_frame schema _ vars fuel store "data" data
      op.selectionSet (getRootType schema op.operation)

/-- C9.  First conjunct: the heap-passing projector never mutates the input
payload — the final store extends the input store and every pre-existing
node is byte-for-byte unchanged (`pickedData` writes only target freshly
allocated nodes).  Second conjunct: projection is a pure, deterministic
function of the payload (store and root), document, operation name,
variables and schema — equal inputs give equal projected results. -/
theorem claim9_no_mutation_and_determinism :
    (∀ fuel store data doc operationName vars schema,
      store.length ≤
        (pickOperationFieldsH fuel store data doc operationName vars schema).1.length
      ∧ ∀ i, i < store.length →
        (pickOperationFieldsH fuel store data doc operationName vars schema).1[i]? =
          store[i]?)
    ∧ (∀ store₁ store₂ data₁ data₂ doc₁ doc₂ n₁ n₂ v₁ v₂ s₁ s₂,
        store₁ = store₂ → data₁ = data₂ → doc₁ = doc₂ → n₁ = n₂ → v₁ = v₂ →
        s₁ = s₂ →
        pickOperationFields store₁ data₁ doc₁ n₁ v₁ s₁ =
          pickOperationFields store₂ data₂ doc₂ n₂ v₂ s₂) := by
  constructor
  · intro fuel store data doc operationName vars schema
    have h := pickOperationFieldsH_frame fuel store data doc operationName vars schema
    exact ⟨h.1, h.2⟩
  · intro store₁ store₂ data₁ data₂ doc₁ doc₂ n₁ n₂ v₁ v₂ s₁ s₂ h1 h2 h3 h4 h5 h6
    subst h1; subst h2; subst h3; subst h4; subst h5; subst h6
    rfl

/-- Witness for C9: projecting the cyclic jack/jill payload leaves all three
pre-existing nodes unchanged, and two runs on equal inputs agree. -/
theorem claim9_witness :
    (pickOperationFieldsH 10 fxCyclicStore (.obj 2) fxC2Doc none [] dummySchema).1[0]? =
      fxCyclicStore[0]?
    ∧ pickOperationFields fxCyclicStore (.obj 2) fxC2Doc none [] dummySchema =
      pickOperationFields fxCyclicStore (.obj 2) fxC2Doc none [] dummySchema :=
  ⟨(claim9_no_mutation_and_determinism.1 10 fxCyclicStore (.obj 2) fxC2Doc none []
      dummySchema).2 0 (by decide),
   claim9_no_mutation_and_determinism.2 fxCyclicStore fxCyclicStore (.obj 2)
     (.obj 2) fxC2Doc fxC2Doc none none [] [] dummySchema dummySchema rfl rfl rfl
     rfl rfl rfl⟩

theorem recordGet_mem {α : Type} :
    ∀ (l : List (String × α)) (k : String) (v : α),
      recordGet l k = some v → (k, v) ∈ l := by
  intro l
  induction l with
  | nil => intro k v h; exact absurd h (by simp [recordGet])
  | cons p rest ih =>
    intro k v h
    rw [recordGet] at h
    by_cases hk : p.1 = k
    · rw [if_pos hk] at h
      cases h
      subst hk
      exact List.mem_cons_self _ _
    · rw [if_neg hk] at h
      exact List.mem_cons_of_mem p (ih k v h)

theorem condMatch_of_notResolvable {schema : SchemaM} {tc : Option String}
    (h : condNotResolvable schema tc = true) :
    doesFragmentConditionMatch schema tc none = true := by
  cases tc with
  | none => rfl
  | some t =>
    simp only [condNotResolvable, Bool.and_eq_true, Bool.not_eq_true',
      List.contains, List.elem_eq_mem, decide_eq_false_iff_not] at h
    simp only [doesFragmentConditionMatch, getType, decide_eq_true_eq]
    rw [if_neg]
    rintro (h1 | h2)
    · exact h.1 h1
    · exact h.2 h2

theorem collectGo_eq_combined (schema : SchemaM) (frags : Fragments)
    (vars : Vars) (hfrags : fragsCondsFree schema frags = true) :
    ∀ fuel sels fm visited, selListCondsFree schema sels = true →
      collectGo schema frags vars none fuel sels fm visited =
        collectCombinedGo schema frags vars fuel sels fm visited := by
  intro fuel
  induction fuel with
  | zero => intro sels fm visited _; rfl
  | succ fuel ih =>
    intro sels fm visited hsels
    cases sels with
    | nil => rfl
    | cons s rest =>
      rw [selListCondsFree, Bool.and_eq_true] at hsels
      obtain ⟨hs, hrest⟩ := hsels
      cases s with
      | field al name dirs sub =>
        rw [collectGo, collectCombinedGo]
        simp only [Bind.bind, Except.bind]
        cases shouldIncludeNode vars dirs with
        | error e => rfl
        | ok inc =>
          cases inc
          · simp only [if_neg (Bool.false_ne_true)]
            exact ih rest fm visited hrest
          · simp only [if_pos rfl]
            exact ih rest (fmapAdd fm (al.getD name) ⟨al, name, dirs, sub⟩)
              visited hrest
      | inlineFragment tc dirs body =>
        rw [selCondsFree, Bool.and_eq_true] at hs
        obtain ⟨htc, hbody⟩ := hs
        rw [collectGo, collectCombinedGo]
        simp only [Bind.bind, Except.bind]
        cases shouldIncludeNode vars dirs with
        | error e => rfl
        | ok inc =>
          cases inc
          · simp only [Bool.false_and, if_neg (Bool.false_ne_true)]
            exact ih rest fm visited hrest
          · rw [condMatch_of_notResolvable htc]
            simp only [Bool.true_and, if_pos rfl]
            rw [ih body fm visited hbody]
            cases collectCombinedGo schema frags vars fuel body fm visited with
            | error e => rfl
            | ok p => exact ih rest p.1 p.2 hrest
      | fragmentSpread fname dirs =>
        rw [collectGo, collectCombinedGo]
        by_cases hv : visited.contains fname = true
        · simp only [if_pos hv]
          exact ih rest fm visited hrest
        · simp only [if_neg hv, Bind.bind, Except.bind]
          cases shouldIncludeNode vars dirs with
          | error e => rfl
          | ok inc =>
            cases inc
            · simp only [Bool.not_false, if_pos rfl]
              exact ih rest fm visited hrest
            · simp only [Bool.not_true, if_neg (Bool.false_ne_true)]
              cases hfr : recordGet frags fname with
              | none => exact ih rest fm (fname :: visited) hrest
              | some frag =>
                have hmem := recordGet_mem frags fname frag hfr
                have hfr2 := (List.all_eq_true.mp hfrags) _ hmem
                rw [Bool.and_eq_true] at hfr2
                have htc : condNotResolvable schema (some frag.typeCondition) = true :=
                  hfr2.1
                have hbody : selListCondsFree schema frag.selectionSet = true :=
                  hfr2.2
                dsimp only
                rw [condMatch_of_notResolvable htc]
                simp only [if_pos rfl]
                rw [ih frag.selectionSet fm (fname :: visited) hbody]
                cases collectCombinedGo schema frags vars fuel frag.selectionSet
                    fm (fname :: visited) with
                | error e => rfl
                | ok p => exact ih rest p.1 p.2 hrest

/-- C7 (amended).  In schema-less mode conditional branches are combined,
but not typename-independently.  First conjunct: whenever the runtime type
is unresolved and every reachable type condition (of inline fragments, of
nested inline-fragment bodies, and of the fragments in the table) is
unresolvable in the schema, field collection coincides with the
specification-side loop `collectCombinedGo` that splices every branch in
unconditionally.  Second conjunct: against the default `new
GraphQLSchema({})`, an object's runtime type is unresolved exactly when its
`__typename` is absent, not a string, or not one of the built-in type names
— so for such objects all conditional branches are combined.  Third
conjunct: the repository's conditional-fragment payload (two relationship
objects with differing non-built-in `__typename`s, `Business` and `Account`)
projects with the `Account` fragment's and the `Business` fragment's fields
spliced into both objects — fields absent from an object surface as
`undefined` leaves, per the behaviour recorded for C1. -/
theorem claim7_amended_schemaless_combines_branches :
    (∀ (schema : SchemaM) (frags : Fragments) (vars : Vars)
       (fuel : Nat) (sels : List Selection) (fm : FieldMap)
       (visited : List String),
      fragsCondsFree schema frags = true →
      selListCondsFree schema sels = true →
      collectGo schema frags vars none fuel sels fm visited =
        collectCombinedGo schema frags vars fuel sels fm visited)
    ∧ (∀ (store : Store) (v : GVal),
        (∀ s, getPropVal store v "__typename" = .str s →
          builtinTypeNames.contains s = false) →
        resolveRuntimeType store dummySchema v = none)
    ∧ pickOperationFields fxFragStore (.obj 0) fxFragDoc none [] dummySchema =
        .ok [("user", .objOut [("relationships", .arrOut
          [.objOut [("id", .raw (.str "bid")), ("name", .raw .undef),
                    ("type", .raw (.str "SME"))],
           .objOut [("id", .raw (.str "jid")), ("name", .raw (.str "Jill")),
                    ("type", .raw .undef)]])])] := by
  refine ⟨?_, ?_, ?_⟩
  · intro schema frags vars fuel sels fm visited hfrags hsels
    exact collectGo_eq_combined schema frags vars hfrags fuel sels fm visited hsels
  · intro store v h
    rw [resolveRuntimeType]
    cases hp : getPropVal store v "__typename" with
    | str s =>
      have hb := h s hp
      dsimp only
      rw [getType, if_neg]
      rintro (h1 | h2)
      · simp [dummySchema] at h1
      · rw [List.contains, List.elem_eq_mem, decide_eq_false_iff_not] at hb
        exact hb h2
    | null => rfl
    | undef => rfl
    | num n => rfl
    | bool b => rfl
    | arr items => rfl
    | obj ref => rfl
  · rfl

/-- Witness for C7: the collection-equality conjunct instantiated on the
conditional-fragment document's inner selection set (the two fragment
spreads) with its fragment table, the dummy schema and no variables, with
both condition-freeness hypotheses checked by evaluation. -/
theorem claim7_amended_witness :
    collectGo dummySchema
      [("UserFields", ⟨"UserFields", "Account",
          [plainField "id" none, plainField "name" none]⟩),
       ("BusinessFields", ⟨"BusinessFields", "Business",
          [plainField "id" none, plainField "type" none]⟩)] [] none 9
      [.fragmentSpread "UserFields" [], .fragmentSpread "BusinessFields" []]
      [] [] =
    collectCombinedGo dummySchema
      [("UserFields", ⟨"UserFields", "Account",
          [plainField "id" none, plainField "name" none]⟩),
       ("BusinessFields", ⟨"BusinessFields", "Business",
          [plainField "id" none, plainField "type" none]⟩)] [] 9
      [.fragmentSpread "UserFields" [], .fragmentSpread "BusinessFields" []]
      [] [] :=
  claim7_amended_schemaless_combines_branches.1 dummySchema
    [("UserFields", ⟨"UserFields", "Account",
        [plainField "id" none, plainField "name" none]⟩),
     ("BusinessFields", ⟨"BusinessFields", "Business",
        [plainField "id" none, plainField "type" none]⟩)] [] 9
    [.fragmentSpread "UserFields" [], .fragmentSpread "BusinessFields" []]
    [] [] (by decide) (by decide)

end Msw
